import Mathlib

/-!
Verification of the SiliconCasino poker hand engine.

Shallow embedding of backend/game_engine/poker: deck.py, betting.py,
table.py, engine.py, hand_evaluator.py.  Chip quantities are modelled as
`Int` (Python ints), seat numbers and agent ids as `Nat`.  The
`players` dict of `BettingState` and the `seats` dict of `TableState`
are modelled as association lists in insertion order, matching Python
dict iteration order.  Event payloads and timestamps are omitted (no
claim depends on their contents); an event keeps its sequence number,
type and agent.  The random shuffle of `Deck.__init__` is modelled by an
explicit parameter `mk_deck : Option Int → List Card` giving the
post-shuffle card order as a function of the seed, which is exactly the
determinism guarantee of `random.Random(seed)`.
-/

namespace Poker

/-- Card of deck.py: rank 2..14, suit 0..3. -/
structure Card where
  rank : Nat
  suit : Nat
deriving DecidableEq, Repr

/-- The 52-card order produced by Deck.reset before shuffling:
for suit in Suit for rank in Rank. -/
def ordered_deck : List Card :=
  (List.range 4).flatMap fun s => (List.range 13).map fun r => Card.mk (r + 2) s

/-- ActionType of betting.py. -/
inductive ActionType where
  | FOLD
  | CHECK
  | CALL
  | BET
  | RAISE
  | ALL_IN
deriving DecidableEq, Repr

/-- BettingRound of betting.py. -/
inductive BettingRound where
  | PREFLOP
  | FLOP
  | TURN
  | RIVER
deriving DecidableEq, Repr

/-- PlayerAction of betting.py (agent_id dropped from the payload here;
the engine keys everything by seat). -/
structure PlayerAction where
  player_seat : Nat
  agent_id : Nat
  action_type : ActionType
  amount : Int
deriving DecidableEq, Repr

/-- PlayerBettingState of betting.py. -/
structure PlayerBettingState where
  seat : Nat
  agent_id : Nat
  stack : Int
  bet_this_round : Int := 0
  total_bet_this_hand : Int := 0
  has_acted : Bool := false
  is_folded : Bool := false
  is_all_in : Bool := false
deriving DecidableEq, Repr

/-- PlayerBettingState.is_active. -/
def PlayerBettingState.is_active (p : PlayerBettingState) : Bool :=
  !p.is_folded && !p.is_all_in

/-- PlayerBettingState.reset_for_round. -/
def PlayerBettingState.reset_for_round (p : PlayerBettingState) : PlayerBettingState :=
  { p with bet_this_round := 0, has_acted := false }

/-- BettingState of betting.py.  `players` is the seat-keyed dict in
insertion order; `action_on` and `last_aggressor` keep the Python int
type (sentinel -1). -/
structure BettingState where
  round : BettingRound
  players : List (Nat × PlayerBettingState) := []
  current_bet : Int := 0
  min_raise : Int := 0
  pot : Int := 0
  action_on : Int := -1
  last_aggressor : Int := -1
  big_blind : Int := 0
deriving DecidableEq, Repr

/-- insert into a sorted list, after any element not strictly greater:
with `lt` the strict comparison this is the stable insertion step. -/
def insert_sorted {α : Type} (lt : α → α → Bool) (x : α) : List α → List α
  | [] => [x]
  | y :: ys => if lt x y then x :: y :: ys else y :: insert_sorted lt x ys

/-- stable ascending sort by the strict comparison `lt`, the behaviour
of Python sorted / list.sort. -/
def stable_sort {α : Type} (lt : α → α → Bool) (l : List α) : List α :=
  l.foldl (fun acc x => insert_sorted lt x acc) []

/-- dict lookup on a Nat-keyed association list (first match). -/
def alist_get {α : Type} (ps : List (Nat × α)) (k : Nat) : Option α :=
  match ps.find? (fun e => e.1 = k) with
  | some e => some e.2
  | none => none

/-- dict store on a Nat-keyed association list: replace the value at
key `k`, keeping order. -/
def alist_set {α : Type} (ps : List (Nat × α)) (k : Nat) (v : α) :
    List (Nat × α) :=
  ps.map fun e => if e.1 = k then (e.1, v) else e

/-- BettingState.get_valid_actions. -/
def BettingState.get_valid_actions (b : BettingState) (seat : Nat) :
    List ActionType :=
  match alist_get b.players seat with
  | none => []
  | some player =>
    if !player.is_active then []
    else
      let to_call : Int := b.current_bet - player.bet_this_round
      let check_or_call : List ActionType :=
        if to_call = 0 then [ActionType.CHECK]
        else if player.stack ≥ to_call then [ActionType.CALL] else []
      let bet_or_raise : List ActionType :=
        if player.stack > to_call then
          if b.current_bet = 0 then
            if player.stack ≥ b.big_blind then [ActionType.BET] else []
          else
            if player.stack + player.bet_this_round ≥ b.current_bet + b.min_raise
            then [ActionType.RAISE] else []
        else []
      let all_in : List ActionType :=
        if player.stack > 0 then [ActionType.ALL_IN] else []
      [ActionType.FOLD] ++ check_or_call ++ bet_or_raise ++ all_in

/-- BettingState.get_call_amount. -/
def BettingState.get_call_amount (b : BettingState) (seat : Nat) : Int :=
  match alist_get b.players seat with
  | none => 0
  | some player => min (b.current_bet - player.bet_this_round) player.stack

/-- BettingState.get_min_raise_to. -/
def BettingState.get_min_raise_to (b : BettingState) : Int :=
  b.current_bet + b.min_raise

/-- BettingState._is_round_complete. -/
def BettingState.is_round_complete (b : BettingState) : Bool :=
  let active := b.players.filter fun e => e.2.is_active
  if active.length ≤ 1 then true
  else active.all fun e => e.2.has_acted && e.2.bet_this_round ≥ b.current_bet

/-- BettingState.count_active_players (players not folded). -/
def BettingState.count_active_players (b : BettingState) : Nat :=
  (b.players.filter fun e => !e.2.is_folded).length

/-- BettingState.count_players_with_action (players neither folded nor
all-in). -/
def BettingState.count_players_with_action (b : BettingState) : Nat :=
  (b.players.filter fun e => e.2.is_active).length

/-- BettingState.process_action.  Python raises before any mutation in
every error branch, so errors leave the state equal to the input and the
embedding returns `Except`. -/
def BettingState.process_action (b : BettingState) (action : PlayerAction) :
    Except String (BettingState × Bool) :=
  match alist_get b.players action.player_seat with
  | none => Except.error "No player at seat"
  | some player =>
    match action.action_type with
    | ActionType.FOLD =>
      let player := { player with is_folded := true, has_acted := true }
      let b := { b with players := alist_set b.players action.player_seat player }
      Except.ok (b, b.is_round_complete)
    | ActionType.CHECK =>
      if b.current_bet > player.bet_this_round then
        Except.error "Cannot check when facing a bet"
      else
        let player := { player with has_acted := true }
        let b := { b with players := alist_set b.players action.player_seat player }
        Except.ok (b, b.is_round_complete)
    | ActionType.CALL =>
      let call_amount := min (b.current_bet - player.bet_this_round) player.stack
      let new_stack := player.stack - call_amount
      let player := { player with
        stack := new_stack,
        bet_this_round := player.bet_this_round + call_amount,
        total_bet_this_hand := player.total_bet_this_hand + call_amount,
        has_acted := true,
        is_all_in := if new_stack = 0 then true else player.is_all_in }
      let b := { b with
        players := alist_set b.players action.player_seat player,
        pot := b.pot + call_amount }
      Except.ok (b, b.is_round_complete)
    | ActionType.BET | ActionType.RAISE =>
      if action.amount < b.get_min_raise_to ∧
          action.amount < player.stack + player.bet_this_round then
        Except.error "Raise below minimum"
      else
        let raise_amount := action.amount - player.bet_this_round
        if raise_amount > player.stack then
          Except.error "Cannot bet more than stack"
        else
          let actual_raise := action.amount - b.current_bet
          let new_min_raise :=
            if actual_raise > b.min_raise then actual_raise else b.min_raise
          let new_stack := player.stack - raise_amount
          let player := { player with
            stack := new_stack,
            bet_this_round := action.amount,
            total_bet_this_hand := player.total_bet_this_hand + raise_amount,
            has_acted := true,
            is_all_in := if new_stack = 0 then true else player.is_all_in }
          let ps := alist_set b.players action.player_seat player
          let ps := ps.map fun e =>
            if e.1 ≠ action.player_seat ∧ e.2.is_active then
              (e.1, { e.2 with has_acted := false })
            else e
          let b := { b with
            players := ps,
            current_bet := action.amount,
            min_raise := new_min_raise,
            pot := b.pot + raise_amount,
            last_aggressor := (action.player_seat : Int) }
          Except.ok (b, b.is_round_complete)
    | ActionType.ALL_IN =>
      let all_in_amount := player.stack
      let total_bet := player.bet_this_round + all_in_amount
      let reopen := total_bet > b.current_bet
      let actual_raise := total_bet - b.current_bet
      let full_reopen := reopen ∧ actual_raise ≥ b.min_raise
      let new_min_raise := if full_reopen then actual_raise else b.min_raise
      let ps :=
        if full_reopen then
          b.players.map fun e =>
            if e.1 ≠ action.player_seat ∧ e.2.is_active then
              (e.1, { e.2 with has_acted := false })
            else e
        else b.players
      let new_current_bet := if reopen then total_bet else b.current_bet
      let new_last_aggressor :=
        if reopen then (action.player_seat : Int) else b.last_aggressor
      let player := { player with
        stack := 0,
        bet_this_round := total_bet,
        total_bet_this_hand := player.total_bet_this_hand + all_in_amount,
        has_acted := true,
        is_all_in := true }
      let b := { b with
        players := alist_set ps action.player_seat player,
        current_bet := new_current_bet,
        min_raise := new_min_raise,
        pot := b.pot + all_in_amount,
        last_aggressor := new_last_aggressor }
      Except.ok (b, b.is_round_complete)

/-- BettingState.get_next_to_act.  The first Python loop scans seats in
[action_on+1, num_seats), the second scans [0, action_on]. -/
def BettingState.get_next_to_act (b : BettingState) (_button_seat : Nat)
    (num_seats : Nat) : Option Nat :=
  let unacted := stable_sort (fun a c => a < c)
    ((b.players.filter fun e => e.2.is_active && !e.2.has_acted).map
      fun e => e.1)
  let active_seats :=
    if unacted.isEmpty then
      stable_sort (fun a c => a < c)
        ((b.players.filter fun e =>
          e.2.is_active && e.2.bet_this_round < b.current_bet).map
          fun e => e.1)
    else unacted
  if active_seats.isEmpty then none
  else
    let start := (max (b.action_on + 1) 0).toNat
    let loop1 := (List.range num_seats).filter fun s => start ≤ s
    let loop2 := List.range start
    match loop1.find? (fun s => s ∈ active_seats) with
    | some s => some s
    | none =>
      match loop2.find? (fun s => s ∈ active_seats) with
      | some s => some s
      | none => active_seats.head?

/-- BettingState.start_new_round. -/
def BettingState.start_new_round (b : BettingState) (new_round : BettingRound)
    (first_to_act : Nat) : BettingState :=
  { b with
    round := new_round,
    current_bet := 0,
    min_raise := b.big_blind,
    action_on := (first_to_act : Int),
    last_aggressor := -1,
    players := b.players.map fun e => (e.1, e.2.reset_for_round) }

/-- SeatState of table.py. -/
structure SeatState where
  seat_number : Nat
  agent_id : Option Nat := none
  stack : Int := 0
  status : String := "empty"
  hole_cards : List Card := []
  is_sitting_out : Bool := false
deriving DecidableEq, Repr

/-- SeatState.is_occupied. -/
def SeatState.is_occupied (s : SeatState) : Bool :=
  s.agent_id.isSome && s.status ≠ "empty"

/-- SeatState.is_ready. -/
def SeatState.is_ready (s : SeatState) : Bool :=
  s.is_occupied && !s.is_sitting_out && s.stack > 0

/-- TableConfig of table.py (table_id and name carry no game content and
are omitted). -/
structure TableConfig where
  small_blind : Int
  big_blind : Int
  min_buy_in : Int
  max_buy_in : Int
  max_players : Nat := 6
deriving DecidableEq, Repr

/-- TableState of table.py.  The seats dict {0..max_players-1} is a list
whose position i holds the seat with seat_number i. -/
structure TableState where
  config : TableConfig
  seats : List SeatState
  button_position : Nat := 0
  hand_number : Nat := 0
  status : String := "waiting"
deriving DecidableEq, Repr

/-- TableState.__post_init__ seat initialization. -/
def init_table (config : TableConfig) : TableState :=
  { config := config,
    seats := (List.range config.max_players).map fun i => { seat_number := i } }

/-- TableState.get_ready_players. -/
def TableState.get_ready_players (t : TableState) : List SeatState :=
  t.seats.filter fun s => s.is_ready

/-- seat numbers of the ready players, sorted ascending
(`sorted([s.seat_number for s in self.get_ready_players()])`). -/
def TableState.ready_seat_numbers (t : TableState) : List Nat :=
  stable_sort (fun a b => a < b) (t.get_ready_players.map fun s => s.seat_number)

/-- TableState.get_seat_by_agent. -/
def TableState.get_seat_by_agent (t : TableState) (agent : Nat) :
    Option SeatState :=
  t.seats.find? fun s => s.agent_id = some agent

/-- position in the seats list of the seat get_seat_by_agent returns;
Python mutates that seat object in place. -/
def TableState.seat_index_of_agent (t : TableState) (agent : Nat) : Option Nat :=
  t.seats.findIdx? fun s => s.agent_id = some agent

/-- TableState.can_start_hand. -/
def TableState.can_start_hand (t : TableState) : Bool :=
  t.get_ready_players.length ≥ 2

/-- TableState.advance_button. -/
def TableState.advance_button (t : TableState) : TableState :=
  let occupied := t.ready_seat_numbers
  if occupied.isEmpty then t
  else
    let next_idx :=
      match occupied.findIdx? (fun s => s = t.button_position) with
      | some i => (i + 1) % occupied.length
      | none => 0
    { t with button_position := occupied.getD next_idx 0 }

/-- TableState.get_blinds_positions.  Returns (sb_seat, bb_seat) and the
possibly-mutated table (the method resets button_position when the
button is not on a ready seat). -/
def TableState.get_blinds_positions (t : TableState) :
    Except String ((Nat × Nat) × TableState) :=
  let ready := t.ready_seat_numbers
  if ready.length < 2 then Except.error "Need at least 2 players for blinds"
  else
    let (button_idx, t) :=
      match ready.findIdx? (fun s => s = t.button_position) with
      | some i => (i, t)
      | none => (0, { t with button_position := ready.getD 0 0 })
    if ready.length = 2 then
      let sb_seat := t.button_position
      let bb_seat := ready.getD ((button_idx + 1) % ready.length) 0
      Except.ok ((sb_seat, bb_seat), t)
    else
      let sb_seat := ready.getD ((button_idx + 1) % ready.length) 0
      let bb_seat := ready.getD ((button_idx + 2) % ready.length) 0
      Except.ok ((sb_seat, bb_seat), t)

/-- TableState.get_first_to_act_preflop (UTG = seat after the big
blind).  Threads the table because get_blinds_positions may mutate it. -/
def TableState.get_first_to_act_preflop (t : TableState) :
    Except String (Nat × TableState) :=
  let ready := t.ready_seat_numbers
  if ready.length < 2 then Except.error "Need at least 2 players"
  else
    match t.get_blinds_positions with
    | Except.error e => Except.error e
    | Except.ok ((_, bb_seat), t) =>
      let bb_idx := (ready.findIdx? (fun s => s = bb_seat)).getD 0
      Except.ok (ready.getD ((bb_idx + 1) % ready.length) 0, t)

/-- TableState.get_first_to_act_postflop (first ready seat after the
button; button_idx defaults to 0 when the button is not ready). -/
def TableState.get_first_to_act_postflop (t : TableState) :
    Except String Nat :=
  let ready := t.ready_seat_numbers
  if ready.isEmpty then Except.error "No ready players"
  else
    let button_idx := (ready.findIdx? (fun s => s = t.button_position)).getD 0
    Except.ok (ready.getD ((button_idx + 1) % ready.length) 0)

/-- all elements of a list equal to its head (helper for the flush
test of the modelled evaluator). -/
def all_equal (l : List Nat) : Bool :=
  match l with
  | [] => true
  | x :: xs => xs.all fun y => y = x

/-- Modelled from the spec: high card of a 5-rank straight given the
five distinct ranks in descending order, with the wheel A-2-3-4-5
counting as a 5-high straight (hand_evaluator.py delegates ranking to
the external treys library, which is not part of this repository). -/
def straight_high (u : List Nat) : Option Nat :=
  match u with
  | [a, b, c, d, e] =>
    if b + 1 = a ∧ c + 1 = b ∧ d + 1 = c ∧ e + 1 = d then some a
    else if a = 14 ∧ b = 5 ∧ c = 4 ∧ d = 3 ∧ e = 2 then some 5
    else none
  | _ => none

/-- category codes follow HandRank of hand_evaluator.py: 1 royal flush,
2 straight flush, 3 quads, 4 full house, 5 flush, 6 straight, 7 trips,
8 two pair, 9 pair, 10 high card. -/
def encode_tiebreak (tb : List Nat) : Nat :=
  (tb ++ List.replicate (5 - tb.length) 14).foldl (fun a r => a * 15 + (14 - r)) 0

/-- Modelled from the spec: score of a single 5-card hand by (primary
rank pattern, kicker ranks), lower score = stronger hand
(hand_evaluator.py delegates this to the external treys library, which
is not part of this repository). -/
def score5 (cards : List Card) : Nat :=
  let ranks_desc := stable_sort (fun a b => a > b) (cards.map fun c => c.rank)
  let uniq := ranks_desc.dedup
  let groups := stable_sort
    (fun a b => a.1 > b.1 ∨ (a.1 = b.1 ∧ a.2 > b.2))
    (uniq.map fun r => (ranks_desc.count r, r))
  let is_flush := all_equal (cards.map fun c => c.suit)
  let cat_tb : Nat × List Nat :=
    match groups.map (fun g => g.1) with
    | [4, 1] =>
      (3, groups.map fun g => g.2)
    | [3, 2] =>
      (4, groups.map fun g => g.2)
    | [3, 1, 1] =>
      (7, groups.map fun g => g.2)
    | [2, 2, 1] =>
      (8, groups.map fun g => g.2)
    | [2, 1, 1, 1] =>
      (9, groups.map fun g => g.2)
    | _ =>
      match straight_high uniq, is_flush with
      | some h, true => if h = 14 then (1, []) else (2, [h])
      | none, true => (5, ranks_desc)
      | some h, false => (6, [h])
      | none, false => (10, ranks_desc)
  cat_tb.1 * 759375 + encode_tiebreak cat_tb.2

/-- Modelled from the spec: best score over all C(n,5) five-card
subsets of the available cards, keeping the minimum (strongest). -/
def best_score (cards : List Card) : Nat :=
  ((cards.sublistsLen 5).map score5).foldr min 1000000000

/-- Modelled from the spec: HandEvaluator.evaluate — requires exactly 2
hole cards and 3..5 community cards, then scores the best 5-card
combination from hole + community (the treys calls in
hand_evaluator.py are not part of this repository). -/
def evaluate (hole_cards community_cards : List Card) : Except String Nat :=
  if hole_cards.length ≠ 2 then Except.error "Expected 2 hole cards"
  else if ¬(3 ≤ community_cards.length ∧ community_cards.length ≤ 5) then
    Except.error "Expected 3-5 community cards"
  else Except.ok (best_score (hole_cards ++ community_cards))

/-- RakeConfig of engine.py; the float field percentage = 0.05 is
modelled exactly as the rational percentage_num / percentage_den
(Python int(pot * 0.05) and (pot * 5) // 100 agree for every pot below
about 10^14, past which the float product is inexact). -/
structure RakeConfig where
  percentage_num : Int := 5
  percentage_den : Int := 100
  cap : Int := 500
  threshold : Int := 100
deriving DecidableEq, Repr

/-- PokerEngine._calculate_rake; Int division in Lean is floor
division, matching Python // and int(pot * percentage) for the
nonnegative pots the engine passes in. -/
def calculate_rake (rc : RakeConfig) (pot : Int) : Int :=
  if pot < rc.threshold then 0
  else min (pot * rc.percentage_num / rc.percentage_den) rc.cap

/-- HandPhase of engine.py. -/
inductive HandPhase where
  | WAITING
  | PREFLOP
  | FLOP
  | TURN
  | RIVER
  | SHOWDOWN
  | COMPLETE
deriving DecidableEq, Repr

/-- one entry of HandState.events (payload and timestamp omitted; no
claim concerns their contents). -/
structure GameEvent where
  sequence : Nat
  etype : String
  agent_id : Option Nat := none
deriving DecidableEq, Repr

/-- HandState of engine.py (hand_id and started_at omitted; the deck is
the remaining card order). -/
structure HandState where
  hand_number : Nat
  phase : HandPhase
  deck : List Card
  community_cards : List Card := []
  pot : Int := 0
  betting : Option BettingState := none
  button_seat : Nat := 0
  events : List GameEvent := []
  hole_cards : List (Nat × List Card) := []
  rake_collected : Int := 0
deriving DecidableEq, Repr

/-- the public snapshot HandState.to_public_dict builds (the per-player
sub-dict and card strings are omitted; the pot field is what C10 is
about). -/
structure PublicHandView where
  hand_number : Nat
  phase : HandPhase
  community_cards : List Card
  pot : Int
  button_seat : Nat
  current_bet : Option Int
  action_on : Option Int
deriving DecidableEq, Repr

/-- HandState.to_public_dict. -/
def HandState.to_public_dict (h : HandState) : PublicHandView :=
  { hand_number := h.hand_number,
    phase := h.phase,
    community_cards := h.community_cards,
    pot := h.pot,
    button_seat := h.button_seat,
    current_bet := h.betting.map fun b => b.current_bet,
    action_on := h.betting.map fun b => b.action_on }

/-- PokerEngine state: table, seed, rake config, current hand, event
sequence counter and session rake total. -/
structure EngineState where
  table : TableState
  seed : Option Int := none
  rake_config : RakeConfig := {}
  current_hand : Option HandState := none
  event_sequence : Nat := 0
  total_rake_collected : Int := 0
deriving DecidableEq, Repr

/-- PokerEngine.__init__. -/
def init_engine (config : TableConfig) (seed : Option Int)
    (rake_config : RakeConfig) : EngineState :=
  { table := init_table config, seed := seed, rake_config := rake_config }

/-- Deck.deal: removes and returns the first n cards, failing if fewer
remain. -/
def deal (deck : List Card) (n : Nat) :
    Except String (List Card × List Card) :=
  if n > deck.length then Except.error "Cannot deal"
  else Except.ok (deck.take n, deck.drop n)

/-- dict write self.table.seats[i] (KeyError when the index is
absent). -/
def set_seat (t : TableState) (i : Nat) (f : SeatState → SeatState) :
    Option TableState :=
  match t.seats.get? i with
  | none => none
  | some se => some { t with seats := t.seats.set i (f se) }

/-- PokerEngine._add_event (early return when no hand is active; the
sequence number increments only when an event is recorded). -/
def add_event (s : EngineState) (etype : String) (agent : Option Nat) :
    EngineState :=
  match s.current_hand with
  | none => s
  | some h =>
    let seq := s.event_sequence + 1
    { s with
      event_sequence := seq,
      current_hand := some { h with
        events := h.events ++ [{ sequence := seq, etype := etype, agent_id := agent }] } }

/-- PokerEngine.seat_player.  All operations return the resulting
engine state together with the Python return value or raised error; the
state component carries whatever mutations happened before a raise. -/
def seat_player (s : EngineState) (agent : Nat) (seat_number : Nat)
    (buy_in : Int) : EngineState × Except String Bool :=
  if seat_number ≥ s.table.config.max_players then
    (s, Except.error "Invalid seat number")
  else
    match s.table.seats.get? seat_number with
    | none => (s, Except.error "KeyError")
    | some seat =>
      if seat.is_occupied then (s, Except.error "Seat is already occupied")
      else if buy_in < s.table.config.min_buy_in then
        (s, Except.error "Buy-in below minimum")
      else if buy_in > s.table.config.max_buy_in then
        (s, Except.error "Buy-in above maximum")
      else
        let seat := { seat with
          agent_id := some agent, stack := buy_in,
          status := "seated", hole_cards := [] }
        ({ s with table :=
          { s.table with seats := s.table.seats.set seat_number seat } },
         Except.ok true)

/-- PokerEngine.remove_player: unconditionally clears the seat found
for the agent and returns its stack (there is no check for an active
hand). -/
def remove_player (s : EngineState) (agent : Nat) :
    EngineState × Except String Int :=
  match s.table.seat_index_of_agent agent with
  | none => (s, Except.error "Agent not found at table")
  | some i =>
    match s.table.seats.get? i with
    | none => (s, Except.error "KeyError")
    | some seat =>
      let remaining_stack := seat.stack
      let seat := { seat with
        agent_id := none, stack := 0, status := "empty", hole_cards := [] }
      ({ s with table := { s.table with seats := s.table.seats.set i seat } },
       Except.ok remaining_stack)

/-- PokerEngine.add_chips. -/
def add_chips (s : EngineState) (agent : Nat) (amount : Int) :
    EngineState × Except String Int :=
  match s.table.seat_index_of_agent agent with
  | none => (s, Except.error "Agent not found at table")
  | some i =>
    match s.table.seats.get? i with
    | none => (s, Except.error "KeyError")
    | some seat =>
      let new_stack := seat.stack + amount
      if new_stack > s.table.config.max_buy_in then
        (s, Except.error "Stack would exceed maximum buy-in")
      else
        ({ s with table :=
          { s.table with seats := s.table.seats.set i { seat with stack := new_stack } } },
         Except.ok new_stack)

/-- PokerEngine.can_start_hand. -/
def can_start_hand (s : EngineState) : Bool :=
  s.current_hand.isNone && s.table.can_start_hand

/-- the hole-card dealing loop of start_hand, over the ready seat
numbers in dict order; returns the partially updated table and hand
when the deck runs short. -/
def deal_hole_cards (ks : List Nat) (t : TableState) (h : HandState) :
    TableState × HandState × Except String Unit :=
  match ks with
  | [] => (t, h, Except.ok ())
  | k :: rest =>
    match deal h.deck 2 with
    | Except.error e => (t, h, Except.error e)
    | Except.ok (cards, deck) =>
      match set_seat t k (fun se => { se with hole_cards := cards }) with
      | none => (t, h, Except.error "KeyError")
      | some t =>
        deal_hole_cards rest t
          { h with deck := deck, hole_cards := h.hole_cards ++ [(k, cards)] }

/-- PokerEngine.start_hand.  `mk_deck` gives the shuffled order of the
fresh `Deck(seed=self._seed)` as a function of the seed. -/
def start_hand (mk_deck : Option Int → List Card) (s : EngineState) :
    EngineState × Except String Unit :=
  if s.current_hand.isSome then (s, Except.error "Hand already in progress")
  else
    let ready := s.table.get_ready_players
    if ready.length < 2 then (s, Except.error "Need at least 2 players to start")
    else
      let t := s.table.advance_button
      let t := { t with hand_number := t.hand_number + 1 }
      let s := { s with table := t, event_sequence := 0 }
      let hand : HandState :=
        { hand_number := t.hand_number,
          phase := HandPhase.PREFLOP,
          deck := mk_deck s.seed,
          button_seat := t.button_position }
      match deal_hole_cards (ready.map fun se => se.seat_number) t hand with
      | (t, _, Except.error e) => ({ s with table := t }, Except.error e)
      | (t, hand, Except.ok _) =>
        match t.get_blinds_positions with
        | Except.error e => ({ s with table := t }, Except.error e)
        | Except.ok ((sb_seat, bb_seat), t) =>
          match t.seats.get? sb_seat, t.seats.get? bb_seat with
          | none, _ => ({ s with table := t }, Except.error "KeyError")
          | _, none => ({ s with table := t }, Except.error "KeyError")
          | some sbs, some bbs =>
            let sb_amount := min s.table.config.small_blind sbs.stack
            let bb_amount := min s.table.config.big_blind bbs.stack
            let betting : BettingState :=
              { round := BettingRound.PREFLOP,
                big_blind := s.table.config.big_blind,
                min_raise := s.table.config.big_blind,
                players := ready.map fun se =>
                  (se.seat_number,
                   { seat := se.seat_number,
                     agent_id := se.agent_id.getD 0,
                     stack := se.stack }) }
            match alist_get betting.players sb_seat with
            | none => ({ s with table := t }, Except.error "KeyError")
            | some sbp =>
              let sbp := { sbp with
                stack := sbp.stack - sb_amount,
                bet_this_round := sb_amount,
                total_bet_this_hand := sb_amount }
              let betting := { betting with
                players := alist_set betting.players sb_seat sbp,
                pot := betting.pot + sb_amount }
              let hand := { hand with pot := hand.pot + sb_amount }
              match set_seat t sb_seat (fun se => { se with stack := se.stack - sb_amount }) with
              | none => ({ s with table := t }, Except.error "KeyError")
              | some t =>
                match alist_get betting.players bb_seat with
                | none => ({ s with table := t }, Except.error "KeyError")
                | some bbp =>
                  let bbp := { bbp with
                    stack := bbp.stack - bb_amount,
                    bet_this_round := bb_amount,
                    total_bet_this_hand := bb_amount }
                  let betting := { betting with
                    players := alist_set betting.players bb_seat bbp,
                    pot := betting.pot + bb_amount }
                  let hand := { hand with pot := hand.pot + bb_amount }
                  match set_seat t bb_seat (fun se => { se with stack := se.stack - bb_amount }) with
                  | none => ({ s with table := t }, Except.error "KeyError")
                  | some t =>
                    match t.get_first_to_act_preflop with
                    | Except.error e => ({ s with table := t }, Except.error e)
                    | Except.ok (first, t) =>
                      let betting := { betting with
                        current_bet := bb_amount,
                        action_on := (first : Int) }
                      let hand := { hand with betting := some betting }
                      let s := { s with
                        table := { t with status := "playing" },
                        current_hand := some hand }
                      (add_event s "hand_start" none, Except.ok ())

/-- PokerEngine._complete_hand: clear hole cards, drop the hand, reset
table status (the closing hand_end event is discarded because
_add_event early-returns once _current_hand is None). -/
def complete_hand (s : EngineState) : EngineState :=
  let t := { s.table with
    seats := s.table.seats.map fun se => { se with hole_cards := [] },
    status := "waiting" }
  add_event { s with table := t, current_hand := none } "hand_end" none

/-- PokerEngine._handle_everyone_folded. -/
def handle_everyone_folded (s : EngineState) : EngineState × Except String Bool :=
  match s.current_hand with
  | none => (s, Except.ok false)
  | some hand =>
    match hand.betting with
    | none => (s, Except.ok false)
    | some betting =>
      match betting.players.filter (fun e => !e.2.is_folded) with
      | [(winner_seat, _)] =>
        let total_pot := betting.pot
        let rake := calculate_rake s.rake_config total_pot
        let pot_won := total_pot - rake
        let s := { s with
          current_hand := some { hand with rake_collected := rake },
          total_rake_collected := s.total_rake_collected + rake }
        match set_seat s.table winner_seat
            (fun se => { se with stack := se.stack + pot_won }) with
        | none => (s, Except.error "KeyError")
        | some t =>
          let s := add_event { s with table := t } "hand_complete" none
          (complete_hand s, Except.ok false)
      | _ => (s, Except.ok true)

/-- the evaluation loop of _handle_showdown: every non-folded seat with
2 hole cards and ≥3 community cards is scored, in dict order. -/
def showdown_evaluations (h : HandState)
    (active : List (Nat × PlayerBettingState)) :
    Except String (List (Nat × Nat)) :=
  match active with
  | [] => Except.ok []
  | (seat, _) :: rest =>
    let hole := (alist_get h.hole_cards seat).getD []
    if hole.length = 2 ∧ 3 ≤ h.community_cards.length then
      match evaluate hole h.community_cards with
      | Except.error e => Except.error e
      | Except.ok sc =>
        match showdown_evaluations h rest with
        | Except.error e => Except.error e
        | Except.ok l => Except.ok ((seat, sc) :: l)
    else showdown_evaluations h rest

/-- the payout loop of _handle_showdown: winner i receives share plus
one odd chip while i < remainder, in evaluation order. -/
def distribute_pot (t : TableState) (winners : List (Nat × Nat)) (i : Nat)
    (share remainder : Int) : TableState × Except String Unit :=
  match winners with
  | [] => (t, Except.ok ())
  | (seat, _) :: rest =>
    let amount := share + (if (i : Int) < remainder then 1 else 0)
    match set_seat t seat (fun se => { se with stack := se.stack + amount }) with
    | none => (t, Except.error "KeyError")
    | some t => distribute_pot t rest (i + 1) share remainder

/-- PokerEngine._handle_showdown. -/
def handle_showdown (s : EngineState) : EngineState × Except String Bool :=
  match s.current_hand with
  | none => (s, Except.ok false)
  | some hand =>
    match hand.betting with
    | none => (s, Except.ok false)
    | some betting =>
      let hand := { hand with phase := HandPhase.SHOWDOWN }
      let s := { s with current_hand := some hand }
      let active := betting.players.filter fun e => !e.2.is_folded
      if active.length = 1 then handle_everyone_folded s
      else
        match showdown_evaluations hand active with
        | Except.error e => (s, Except.error e)
        | Except.ok evals =>
          match stable_sort (fun a b => a.2 < b.2) evals with
          | [] => (s, Except.error "IndexError")
          | (s0, best_score0) :: sorted_rest =>
            let winners := ((s0, best_score0) :: sorted_rest).filter
              fun e => e.2 = best_score0
            let total_pot := betting.pot
            let rake := calculate_rake s.rake_config total_pot
            let pot := total_pot - rake
            let s := { s with
              current_hand := some { hand with rake_collected := rake },
              total_rake_collected := s.total_rake_collected + rake }
            let share := pot / (winners.length : Int)
            let remainder := pot % (winners.length : Int)
            match distribute_pot s.table winners 0 share remainder with
            | (t, Except.error e) => ({ s with table := t }, Except.error e)
            | (t, Except.ok _) =>
              let s := add_event { s with table := t } "showdown" none
              (complete_hand s, Except.ok false)

/-- one iteration of the _deal_remaining_and_showdown while-loop. -/
def runout_step (h : HandState) : HandState × Except String Unit :=
  match h.phase with
  | HandPhase.PREFLOP =>
    match deal h.deck 1 with
    | Except.error e => (h, Except.error e)
    | Except.ok (_, deck) =>
      match deal deck 3 with
      | Except.error e => ({ h with deck := deck }, Except.error e)
      | Except.ok (cards, deck) =>
        let h := { h with
          deck := deck,
          community_cards := h.community_cards ++ cards,
          phase := HandPhase.FLOP }
        (h, Except.ok ())
  | HandPhase.FLOP =>
    match deal h.deck 1 with
    | Except.error e => (h, Except.error e)
    | Except.ok (_, deck) =>
      match deal deck 1 with
      | Except.error e => ({ h with deck := deck }, Except.error e)
      | Except.ok (cards, deck) =>
        let h := { h with
          deck := deck,
          community_cards := h.community_cards ++ cards,
          phase := HandPhase.TURN }
        (h, Except.ok ())
  | HandPhase.TURN =>
    match deal h.deck 1 with
    | Except.error e => (h, Except.error e)
    | Except.ok (_, deck) =>
      match deal deck 1 with
      | Except.error e => ({ h with deck := deck }, Except.error e)
      | Except.ok (cards, deck) =>
        let h := { h with
          deck := deck,
          community_cards := h.community_cards ++ cards,
          phase := HandPhase.RIVER }
        (h, Except.ok ())
  | _ => (h, Except.ok ())

/-- the while-loop of _deal_remaining_and_showdown, with fuel 3 (at
most three iterations make progress; a state in which no branch applies
loops forever in Python and is reported as an error here). -/
def runout_loop (h : HandState) : Nat → HandState × Except String Unit
  | 0 =>
    if h.community_cards.length < 5 then (h, Except.error "nonterminating runout")
    else (h, Except.ok ())
  | fuel + 1 =>
    if h.community_cards.length < 5 then
      match runout_step h with
      | (h, Except.error e) => (h, Except.error e)
      | (h, Except.ok _) =>
        if h.community_cards.length < 5 ∧ h.phase ≠ HandPhase.PREFLOP ∧
            h.phase ≠ HandPhase.FLOP ∧ h.phase ≠ HandPhase.TURN ∧
            h.community_cards.length < 5 then
          (h, Except.error "nonterminating runout")
        else runout_loop h fuel
    else (h, Except.ok ())

/-- PokerEngine._deal_remaining_and_showdown. -/
def deal_remaining_and_showdown (s : EngineState) :
    EngineState × Except String Bool :=
  match s.current_hand with
  | none => (s, Except.ok false)
  | some hand =>
    match runout_loop hand 3 with
    | (hand, Except.error e) =>
      ({ s with current_hand := some hand }, Except.error e)
    | (hand, Except.ok _) =>
      let s := add_event { s with current_hand := some hand }
        "community_cards" none
      handle_showdown s

/-- BettingRound(next_phase.name.lower()) for the phases the engine
passes (FLOP, TURN, RIVER). -/
def betting_round_of_phase : HandPhase → BettingRound
  | HandPhase.FLOP => BettingRound.FLOP
  | HandPhase.TURN => BettingRound.TURN
  | HandPhase.RIVER => BettingRound.RIVER
  | _ => BettingRound.PREFLOP

/-- the active_seats comprehension of _advance_to_next_phase
(KeyError when a ready seat is missing from the betting dict). -/
def active_ready_seats (b : BettingState) (ready : List Nat) :
    Except String (List Nat) :=
  match ready with
  | [] => Except.ok []
  | k :: rest =>
    match alist_get b.players k with
    | none => Except.error "KeyError"
    | some p =>
      match active_ready_seats b rest with
      | Except.error e => Except.error e
      | Except.ok l => Except.ok (if p.is_folded then l else k :: l)

/-- first-to-act search of _advance_to_next_phase: the active seat
after the button, else the first active seat, else the first ready
seat. -/
def first_to_act_postflop_engine (button : Nat) (active_seats ready : List Nat) :
    Except String Nat :=
  match active_seats.findIdx? (fun x => x = button) with
  | some i => Except.ok (active_seats.getD ((i + 1) % active_seats.length) 0)
  | none =>
    match active_seats with
    | a :: _ => Except.ok a
    | [] =>
      match ready with
      | r :: _ => Except.ok r
      | [] => Except.error "IndexError"

/-- PokerEngine._advance_to_next_phase. -/
def advance_to_next_phase (s : EngineState) : EngineState × Except String Bool :=
  match s.current_hand with
  | none => (s, Except.ok false)
  | some hand =>
    match hand.betting with
    | none => (s, Except.ok false)
    | some betting =>
      if betting.count_players_with_action ≤ 1 then
        if hand.phase = HandPhase.RIVER then handle_showdown s
        else
          match deal_remaining_and_showdown s with
          | (s, Except.error e) => (s, Except.error e)
          | (s, Except.ok _) => (s, Except.ok false)
      else
        let transition : Option (HandPhase × Nat) :=
          match hand.phase with
          | HandPhase.PREFLOP => some (HandPhase.FLOP, 3)
          | HandPhase.FLOP => some (HandPhase.TURN, 1)
          | HandPhase.TURN => some (HandPhase.RIVER, 1)
          | HandPhase.RIVER => some (HandPhase.SHOWDOWN, 0)
          | _ => none
        match transition with
        | none => (s, Except.ok false)
        | some (next_phase, cards_to_deal) =>
          if next_phase = HandPhase.SHOWDOWN then handle_showdown s
          else
            match deal hand.deck 1 with
            | Except.error e => (s, Except.error e)
            | Except.ok (_, deck) =>
              match deal deck cards_to_deal with
              | Except.error e =>
                ({ s with current_hand := some { hand with deck := deck } },
                 Except.error e)
              | Except.ok (new_cards, deck) =>
                let hand := { hand with
                  deck := deck,
                  community_cards := hand.community_cards ++ new_cards,
                  phase := next_phase }
                let s := add_event { s with current_hand := some hand }
                  "community_cards" none
                let ready_seats := s.table.ready_seat_numbers
                match active_ready_seats betting ready_seats with
                | Except.error e => (s, Except.error e)
                | Except.ok active_seats =>
                  match first_to_act_postflop_engine s.table.button_position
                      active_seats ready_seats with
                  | Except.error e => (s, Except.error e)
                  | Except.ok first_to_act =>
                    let betting := betting.start_new_round
                      (betting_round_of_phase next_phase) first_to_act
                    match s.current_hand with
                    | none => (s, Except.error "unreachable")
                    | some hand =>
                      let hand := { hand with betting := some betting }
                      ({ s with current_hand := some hand }, Except.ok true)

/-- PokerEngine.process_action. -/
def process_action (s : EngineState) (agent : Nat) (action_type : ActionType)
    (amount : Int) : EngineState × Except String Bool :=
  match s.current_hand with
  | none => (s, Except.error "No hand in progress")
  | some hand =>
    match hand.betting with
    | none => (s, Except.error "No hand in progress")
    | some betting =>
      match s.table.get_seat_by_agent agent with
      | none => (s, Except.error "Agent not found at table")
      | some seat =>
        if betting.action_on ≠ (seat.seat_number : Int) then
          (s, Except.error "Not your turn to act")
        else if action_type ∉ betting.get_valid_actions seat.seat_number then
          (s, Except.error "Invalid action")
        else
          let action : PlayerAction :=
            { player_seat := seat.seat_number, agent_id := agent,
              action_type := action_type, amount := amount }
          match betting.process_action action with
          | Except.error e => (s, Except.error e)
          | Except.ok (betting, round_complete) =>
            let hand := { hand with betting := some betting }
            let s := { s with current_hand := some hand }
            match alist_get betting.players seat.seat_number with
            | none => (s, Except.error "KeyError")
            | some pb =>
              match set_seat s.table seat.seat_number
                  (fun se => { se with stack := pb.stack }) with
              | none => (s, Except.error "KeyError")
              | some t =>
                let s := add_event { s with table := t }
                  "player_action" (some agent)
                if betting.count_active_players = 1 then
                  handle_everyone_folded s
                else if round_complete then
                  advance_to_next_phase s
                else
                  match betting.get_next_to_act s.table.button_position
                      s.table.config.max_players with
                  | some next =>
                    match s.current_hand with
                    | none => (s, Except.ok true)
                    | some hand =>
                      let betting := { betting with action_on := (next : Int) }
                      let hand := { hand with betting := some betting }
                      ({ s with current_hand := some hand }, Except.ok true)
                  | none => (s, Except.ok true)

/-- PokerEngine.get_state, reduced to the hand snapshot (valid actions
and table view carry no additional chip state). -/
def get_state (s : EngineState) : Option PublicHandView :=
  s.current_hand.map fun h => h.to_public_dict

/-- one observable operation on a table's engine. -/
inductive Op where
  | seat_player (agent : Nat) (seat_number : Nat) (buy_in : Int)
  | remove_player (agent : Nat)
  | add_chips (agent : Nat) (amount : Int)
  | start_hand
  | process_action (agent : Nat) (action : ActionType) (amount : Int)

/-- run one operation, threading the ledger of chips bought into the
table: + buy_in on successful seating, + amount on successful
add_chips, − returned stack on successful removal. -/
def run_op (mk_deck : Option Int → List Card) (sl : EngineState × Int)
    (op : Op) : EngineState × Int :=
  match op with
  | Op.seat_player a n b =>
    match seat_player sl.1 a n b with
    | (s, Except.ok _) => (s, sl.2 + b)
    | (s, Except.error _) => (s, sl.2)
  | Op.remove_player a =>
    match remove_player sl.1 a with
    | (s, Except.ok returned) => (s, sl.2 - returned)
    | (s, Except.error _) => (s, sl.2)
  | Op.add_chips a amt =>
    match add_chips sl.1 a amt with
    | (s, Except.ok _) => (s, sl.2 + amt)
    | (s, Except.error _) => (s, sl.2)
  | Op.start_hand => ((start_hand mk_deck sl.1).1, sl.2)
  | Op.process_action a t amt => ((process_action sl.1 a t amt).1, sl.2)

/-- run a sequence of operations from an initial engine and ledger. -/
def run_ops (mk_deck : Option Int → List Card) (init : EngineState × Int)
    (ops : List Op) : EngineState × Int :=
  ops.foldl (run_op mk_deck) init

/-- chips visible on the table: seat stacks, the live betting pot of
the current hand, and the session rake total. -/
def chip_total (s : EngineState) : Int :=
  (s.table.seats.map fun se => se.stack).sum +
    (match s.current_hand with
     | some h =>
       match h.betting with
       | some b => b.pot
       | none => 0
     | none => 0) +
    s.total_rake_collected

/-- an operation is safe when add_chips and remove_player are only
issued between hands, and start_hand either succeeds or rejects without
mutating (start_hand can abort after deducting blinds when the blinds
leave fewer than two ready seats, destroying the posted chips). -/
def op_allowed (mk_deck : Option Int → List Card) (s : EngineState)
    (op : Op) : Prop :=
  match op with
  | Op.remove_player _ => s.current_hand = none
  | Op.add_chips _ _ => s.current_hand = none
  | Op.start_hand =>
    (start_hand mk_deck s).2 = Except.ok () ∨ (start_hand mk_deck s).1 = s
  | _ => True

/-- every operation of the list is safe at the state where it
executes. -/
def ops_allowed (mk_deck : Option Int → List Card) (sl : EngineState × Int) :
    List Op → Prop
  | [] => True
  | op :: rest =>
    op_allowed mk_deck sl.1 op ∧ ops_allowed mk_deck (run_op mk_deck sl op) rest

/-! ## Claim theorems -/

/-- the rake configuration of Scenario C: 5%, cap 100, threshold 100. -/
def scenC_rake : RakeConfig :=
  { percentage_num := 5, percentage_den := 100, cap := 100, threshold := 100 }

/-- C7 counterexample: with the Scenario C configuration the rake on a
pot of 1010 is 50, but min(pot * rake_percentage, rake_cap) is 50.5 —
the claim omits the int() truncation, so the stated equality fails. -/
theorem C7_counterexample :
    ¬ ((calculate_rake scenC_rake 1010 : ℚ) =
      min ((1010 : ℚ) * (5 / 100)) 100) := by
  norm_num [calculate_rake, scenC_rake]

/-- C7 amended: the rake at distribution is min(⌊pot * rake_percentage⌋,
rake_cap) when pot ≥ rake_threshold and 0 otherwise; with percentage 5%,
cap 100, threshold 100: pot 1000 yields 50, pot 5000 yields 100, and
pot 50 yields 0. -/
theorem C7_amended (rc : RakeConfig) (pot : Int)
    (hden : 0 < rc.percentage_den) :
    (rc.threshold ≤ pot →
      calculate_rake rc pot =
        min (Int.floor ((pot : ℚ) * (rc.percentage_num / rc.percentage_den)))
          rc.cap) ∧
    (pot < rc.threshold → calculate_rake rc pot = 0) ∧
    calculate_rake scenC_rake 1000 = 50 ∧
    calculate_rake scenC_rake 5000 = 100 ∧
    calculate_rake scenC_rake 50 = 0 := by
  refine ⟨fun hth => ?_, fun hth => ?_, by decide, by decide, by decide⟩
  · have hd : ((rc.percentage_den.toNat : ℤ)) = rc.percentage_den :=
      Int.toNat_of_nonneg (le_of_lt hden)
    have hfloor : Int.floor ((pot : ℚ) * (rc.percentage_num / rc.percentage_den)) =
        pot * rc.percentage_num / rc.percentage_den := by
      have hdq : ((rc.percentage_den.toNat : ℕ) : ℚ) = ((rc.percentage_den : ℤ) : ℚ) := by
        exact_mod_cast congrArg (fun z : ℤ => (z : ℚ)) hd
      rw [show ((pot : ℚ) * (rc.percentage_num / rc.percentage_den)) =
        ((pot * rc.percentage_num : Int) : ℚ) / ((rc.percentage_den.toNat : ℕ) : ℚ) by
          rw [hdq]; push_cast; ring]
      rw [Rat.floor_intCast_div_natCast, hd]
    rw [calculate_rake, if_neg (by omega), hfloor]
  · rw [calculate_rake, if_pos hth]

/-- C7 amended witness at the Scenario C configuration and pot 1000. -/
theorem C7_amended_witness :
    calculate_rake scenC_rake 1000 = 50 ∧
    calculate_rake scenC_rake 50 = 0 :=
  ⟨(C7_amended scenC_rake 1000 (by decide)).2.2.1,
   (C7_amended scenC_rake 50 (by decide)).2.2.2.2⟩

/-- betting state after an all-in raise heads-up: seat 0 shoved to 100,
seat 1 (still active, unacted, bet 10 of 100) has not responded. -/
def C3_state : BettingState :=
  { round := BettingRound.PREFLOP,
    players :=
      [(0, { seat := 0, agent_id := 1, stack := 0, bet_this_round := 100,
             total_bet_this_hand := 100, has_acted := true,
             is_folded := false, is_all_in := true }),
       (1, { seat := 1, agent_id := 2, stack := 490, bet_this_round := 10,
             total_bet_this_hand := 10, has_acted := false,
             is_folded := false, is_all_in := false })],
    current_bet := 100, min_raise := 90, pot := 110,
    action_on := 1, last_aggressor := 0, big_blind := 10 }

/-- C3 counterexample: with two non-folded players of which the one
non-all-in seat has not acted and has not matched current_bet, the code
reports the round complete (it counts only non-folded, non-all-in
seats), so the claimed biconditional fails. -/
theorem C3_counterexample :
    ¬ (C3_state.is_round_complete = true ↔
      ((C3_state.players.filter fun e => !e.2.is_folded).length ≤ 1 ∨
        ∀ e ∈ C3_state.players, e.2.is_folded = false → e.2.is_all_in = false →
          e.2.has_acted = true ∧ e.2.bet_this_round = C3_state.current_bet)) := by
  decide

/-- C3 amended: the round is complete iff at most one non-folded,
non-all-in player remains, or every non-folded, non-all-in seat has
acted and has bet_this_round ≥ current_bet. -/
theorem C3_amended (b : BettingState) :
    b.is_round_complete = true ↔
      ((b.players.filter fun e => e.2.is_active).length ≤ 1 ∨
        ∀ e ∈ b.players, e.2.is_active = true →
          e.2.has_acted = true ∧ b.current_bet ≤ e.2.bet_this_round) := by
  unfold BettingState.is_round_complete
  by_cases h : (b.players.filter fun e => e.2.is_active).length ≤ 1
  · simp [h]
  · simp only [if_neg h, List.all_eq_true, List.mem_filter, Bool.and_eq_true,
      decide_eq_true_eq, ge_iff_le]
    constructor
    · intro hh
      exact Or.inr fun e he hact => hh e ⟨he, hact⟩
    · intro hh e he
      cases hh with
      | inl hlen => exact absurd hlen h
      | inr hall => exact hall e he.1 he.2

/-- preflop heads-up state the engine reaches when the big blind is
short-stacked: SB=5/BB=10, the big blind (seat 0) could post only 3,
so current_bet = 3 while the small blind (seat 1) has bet 5. -/
def C5_state : BettingState :=
  { round := BettingRound.PREFLOP,
    players :=
      [(0, { seat := 0, agent_id := 1, stack := 0, bet_this_round := 3,
             total_bet_this_hand := 3 }),
       (1, { seat := 1, agent_id := 2, stack := 495, bet_this_round := 5,
             total_bet_this_hand := 5 })],
    current_bet := 3, min_raise := 10, pot := 8,
    action_on := 1, last_aggressor := -1, big_blind := 10 }

/-- C5 counterexample: at the short-big-blind state, seat 1 already has
bet_this_round (5) above current_bet (3), yet CALL is in
get_valid_actions (the code only tests to_call ≠ 0), so the claimed
action characterization fails for this active seat. -/
theorem C5_counterexample :
    ¬ ((ActionType.FOLD ∈ C5_state.get_valid_actions 1) ∧
      (ActionType.CHECK ∈ C5_state.get_valid_actions 1 ↔
        (5 : Int) = C5_state.current_bet) ∧
      (ActionType.CALL ∈ C5_state.get_valid_actions 1 ↔
        C5_state.current_bet > 5 ∧ C5_state.current_bet - 5 ≤ 495) ∧
      (ActionType.BET ∈ C5_state.get_valid_actions 1 ↔
        C5_state.current_bet = 0 ∧ C5_state.big_blind ≤ 495) ∧
      (ActionType.RAISE ∈ C5_state.get_valid_actions 1 ↔
        C5_state.current_bet > 0 ∧
          C5_state.current_bet + C5_state.min_raise ≤ 495 + 5) ∧
      (ActionType.ALL_IN ∈ C5_state.get_valid_actions 1 ↔ (0 : Int) < 495)) := by
  decide

/-- C5 amended: for an active seat, FOLD is always offered; CHECK iff
bet_this_round = current_bet; CALL iff bet_this_round ≠ current_bet and
stack ≥ current_bet − bet_this_round (an integer difference, so CALL is
also offered when bet_this_round exceeds current_bet); BET iff
stack > current_bet − bet_this_round, current_bet = 0 and
stack ≥ big_blind; RAISE iff stack > current_bet − bet_this_round,
current_bet ≠ 0 and stack + bet_this_round ≥ current_bet + min_raise;
ALL_IN iff stack > 0; folded, all-in or absent seats get the empty
list. -/
theorem C5_amended (b : BettingState) (seat : Nat) :
    (∀ p, alist_get b.players seat = some p → p.is_active = true →
      ((ActionType.FOLD ∈ b.get_valid_actions seat) ∧
       (ActionType.CHECK ∈ b.get_valid_actions seat ↔
         p.bet_this_round = b.current_bet) ∧
       (ActionType.CALL ∈ b.get_valid_actions seat ↔
         p.bet_this_round ≠ b.current_bet ∧
           b.current_bet - p.bet_this_round ≤ p.stack) ∧
       (ActionType.BET ∈ b.get_valid_actions seat ↔
         b.current_bet - p.bet_this_round < p.stack ∧ b.current_bet = 0 ∧
           b.big_blind ≤ p.stack) ∧
       (ActionType.RAISE ∈ b.get_valid_actions seat ↔
         b.current_bet - p.bet_this_round < p.stack ∧ b.current_bet ≠ 0 ∧
           b.current_bet + b.min_raise ≤ p.stack + p.bet_this_round) ∧
       (ActionType.ALL_IN ∈ b.get_valid_actions seat ↔ 0 < p.stack))) ∧
    (alist_get b.players seat = none → b.get_valid_actions seat = []) ∧
    (∀ p, alist_get b.players seat = some p → p.is_active = false →
      b.get_valid_actions seat = []) := by
  refine ⟨fun p hp ha => ?_, fun hn => ?_, fun p hp ha => ?_⟩
  · unfold BettingState.get_valid_actions
    rw [hp]
    simp only [ha, Bool.not_true, Bool.false_eq_true, if_false]
    split_ifs <;> simp_all [List.mem_append] <;> omega
  · unfold BettingState.get_valid_actions
    rw [hn]
  · unfold BettingState.get_valid_actions
    rw [hp]
    simp [ha]

/-- C5 amended witness at the short-big-blind state: applying the
amended characterization to seat 1 shows CALL offered there. -/
theorem C5_amended_witness :
    ActionType.CALL ∈ C5_state.get_valid_actions 1 :=
  (((C5_amended C5_state 1).1
    { seat := 1, agent_id := 2, stack := 495, bet_this_round := 5,
      total_bet_this_hand := 5 } (by decide) (by decide)).2.2.1).mpr
    (by decide)

/-- heads-up table configuration: SB 5 / BB 10, buy-in 100..1000, two
seats. -/
def cfg2 : TableConfig :=
  { small_blind := 5, big_blind := 10, min_buy_in := 100,
    max_buy_in := 1000, max_players := 2 }

/-- deterministic deck order for concrete runs: the identity shuffle. -/
def mk_ordered : Option Int → List Card := fun _ => ordered_deck

/-- seat two players with 500 each and start a hand. -/
def hu_start_ops : List Op :=
  [Op.seat_player 1 0 500, Op.seat_player 2 1 500, Op.start_hand]

/-- heads-up engine state right after start_hand. -/
def hu_started : EngineState :=
  (run_ops mk_ordered (init_engine cfg2 none {}, 0) hu_start_ops).1

/-- heads-up engine state at the flop: button (seat 1) calls, big
blind (seat 0) checks. -/
def hu_flop_state : EngineState :=
  (run_ops mk_ordered (init_engine cfg2 none {}, 0)
    (hu_start_ops ++ [Op.process_action 2 ActionType.CALL 0,
      Op.process_action 1 ActionType.CHECK 0])).1

/-- C4 counterexample: in the heads-up run the button is seat 1 and the
flop betting round opens with action on seat 0 — the seat after the
button — not on the button as claimed. -/
theorem C4_counterexample :
    hu_flop_state.table.button_position = 1 ∧
    (hu_flop_state.current_hand.map fun h => h.phase) = some HandPhase.FLOP ∧
    (hu_flop_state.current_hand.bind fun h =>
      h.betting.map fun bb => bb.action_on) = some 0 ∧
    ¬ ((hu_flop_state.current_hand.bind fun h =>
      h.betting.map fun bb => bb.action_on) =
        some ((hu_flop_state.table.button_position : Nat) : Int)) := by
  refine ⟨by decide, by decide, by decide, by decide⟩

/-- C4 amended: heads-up the button posts the small blind and the other
ready seat posts the big blind, but the first to act when a postflop
round starts is the seat after the button (the non-button seat), both
in TableState.get_first_to_act_postflop and in the engine's own
first-to-act search. -/
theorem C4_amended (t : TableState) (a b : Nat) (hab : a ≠ b)
    (h : t.ready_seat_numbers = [a, b]) :
    (t.button_position = a →
      t.get_blinds_positions = Except.ok ((a, b), t) ∧
      t.get_first_to_act_postflop = Except.ok b) ∧
    (t.button_position = b →
      t.get_blinds_positions = Except.ok ((b, a), t) ∧
      t.get_first_to_act_postflop = Except.ok a) ∧
    first_to_act_postflop_engine a [a, b] [a, b] = Except.ok b ∧
    first_to_act_postflop_engine b [a, b] [a, b] = Except.ok a := by
  refine ⟨fun hbtn => ⟨?_, ?_⟩, fun hbtn => ⟨?_, ?_⟩, ?_, ?_⟩
  · simp [TableState.get_blinds_positions, h, hbtn, List.findIdx?]
  · simp [TableState.get_first_to_act_postflop, h, hbtn, List.findIdx?]
  · simp [TableState.get_blinds_positions, h, hbtn, List.findIdx?, hab]
  · simp [TableState.get_first_to_act_postflop, h, hbtn, List.findIdx?, hab]
  · simp [first_to_act_postflop_engine, List.findIdx?]
  · simp [first_to_act_postflop_engine, List.findIdx?, hab]

/-- C4 amended witness: the heads-up table after the blinds, ready
seats [0, 1] with the button on seat 1 — the blinds are (1, 0) and the
postflop first-to-act is seat 0. -/
theorem C4_amended_witness :
    hu_started.table.get_blinds_positions =
      Except.ok ((1, 0), hu_started.table) ∧
    hu_started.table.get_first_to_act_postflop = Except.ok 0 :=
  (C4_amended hu_started.table 0 1 (by decide) (by decide)).2.1 (by decide)

/-- buy two stacks of 500 in, start a hand, add 100 chips to the
player about to act, then let that player call. -/
def C1_ops : List Op :=
  hu_start_ops ++ [Op.add_chips 2 100, Op.process_action 2 ActionType.CALL 0]

/-- C1 counterexample: add_chips during a hand updates the seat stack
but not the betting snapshot, and the post-action stack sync overwrites
the seat with the stale snapshot, so after the call the table holds
1000 chips against 1100 bought in — the conservation equation fails for
this operation sequence. -/
theorem C1_counterexample :
    ¬ (chip_total (run_ops mk_ordered (init_engine cfg2 none {}, 0) C1_ops).1 =
      (run_ops mk_ordered (init_engine cfg2 none {}, 0) C1_ops).2) := by
  decide

/-- C2: removing a player whose seat still holds two hole cards in the
live hand succeeds — remove_player has no active-hand check.  The call
returns the stack (495), empties the seat, and leaves the hand running
with that seat still in the betting dict. -/
theorem C2_code_bug :
    hu_started.current_hand.isSome = true ∧
    ((hu_started.table.seats.get? 1).map fun se => se.hole_cards.length) =
      some 2 ∧
    (remove_player hu_started 2).2 = Except.ok 495 ∧
    (((remove_player hu_started 2).1.table.seats.get? 1).map fun se =>
      (se.agent_id, se.stack, se.status)) = some (none, 0, "empty") ∧
    (remove_player hu_started 2).1.current_hand = hu_started.current_hand := by
  refine ⟨by decide, by decide, by rfl, by decide, by rfl⟩

/-- a successful dict lookup means the pair is in the list. -/
theorem alist_get_mem {α : Type} (ps : List (Nat × α)) (k : Nat) (v : α)
    (h : alist_get ps k = some v) : (k, v) ∈ ps := by
  unfold alist_get at h
  cases hf : ps.find? (fun e => e.1 = k) with
  | none => rw [hf] at h; cases h
  | some e =>
    rw [hf] at h
    cases h
    have hmem := List.mem_of_find?_eq_some hf
    have hkey := List.find?_some hf
    obtain ⟨e1, e2⟩ := e
    simp only [decide_eq_true_eq] at hkey
    subst hkey
    exact hmem

/-- a nonempty valid-action list requires an active player at the
seat. -/
theorem get_valid_actions_player (b : BettingState) (seat : Nat)
    (h : b.get_valid_actions seat ≠ []) :
    ∃ p, alist_get b.players seat = some p ∧ p.is_active = true := by
  cases hp : alist_get b.players seat with
  | none =>
    exfalso
    apply h
    unfold BettingState.get_valid_actions
    rw [hp]
  | some p =>
    refine ⟨p, rfl, ?_⟩
    by_contra ha
    exfalso
    apply h
    unfold BettingState.get_valid_actions
    rw [hp]
    simp only [Bool.not_eq_true] at ha
    simp [ha]

/-- arithmetic facts carried by BET / RAISE membership in the valid
action list. -/
theorem valid_bet_raise_bounds (b : BettingState) (seat : Nat)
    (p : PlayerBettingState) (hp : alist_get b.players seat = some p) :
    (ActionType.BET ∈ b.get_valid_actions seat →
      b.current_bet = 0 ∧ b.big_blind ≤ p.stack) ∧
    (ActionType.RAISE ∈ b.get_valid_actions seat →
      b.current_bet + b.min_raise ≤ p.stack + p.bet_this_round) := by
  unfold BettingState.get_valid_actions
  rw [hp]
  by_cases ha : p.is_active
  · simp only [ha, Bool.not_true, Bool.false_eq_true, if_false]
    split_ifs <;> simp_all [List.mem_append]
  · simp [ha]

/-- C6: with an in-progress hand satisfying the engine's betting
invariant (current_bet = 0 only right after start_new_round, when
min_raise is the big blind and nobody has bet), process_action called
out of turn, with an action not in get_valid_actions, or with a
BET/RAISE amount below the minimum raise-to, returns an error and
leaves the whole engine state — pot, stacks, betting state, phase and
event log — unchanged. -/
theorem C6_rejection_invariance (s : EngineState) (agent : Nat)
    (act : ActionType) (amount : Int) (hand : HandState)
    (betting : BettingState)
    (hh : s.current_hand = some hand) (hb : hand.betting = some betting)
    (hinv : betting.current_bet = 0 →
      betting.min_raise = betting.big_blind ∧
      ∀ e ∈ betting.players, e.2.bet_this_round = 0)
    (hbad : ∀ seat, s.table.get_seat_by_agent agent = some seat →
      (betting.action_on ≠ (seat.seat_number : Int) ∨
       act ∉ betting.get_valid_actions seat.seat_number ∨
       ((act = ActionType.BET ∨ act = ActionType.RAISE) ∧
         amount < betting.get_min_raise_to))) :
    (process_action s agent act amount).1 = s ∧
    ∃ e, (process_action s agent act amount).2 = Except.error e := by
  unfold process_action
  simp only [hh, hb]
  cases hseat : s.table.get_seat_by_agent agent with
  | none => simp only [hseat]; exact ⟨trivial, _, rfl⟩
  | some seat =>
    simp only [hseat]
    rcases hbad seat hseat with hturn | hvalid | hmin
    · rw [if_pos hturn]
      exact ⟨rfl, _, rfl⟩
    · by_cases hturn : betting.action_on ≠ (seat.seat_number : Int)
      · rw [if_pos hturn]; exact ⟨rfl, _, rfl⟩
      · rw [if_neg hturn, if_pos hvalid]
        exact ⟨rfl, _, rfl⟩
    · by_cases hturn : betting.action_on ≠ (seat.seat_number : Int)
      · rw [if_pos hturn]; exact ⟨rfl, _, rfl⟩
      rw [if_neg hturn]
      by_cases hvalid : act ∉ betting.get_valid_actions seat.seat_number
      · rw [if_pos hvalid]; exact ⟨rfl, _, rfl⟩
      rw [if_neg hvalid]
      push_neg at hvalid
      have hne : betting.get_valid_actions seat.seat_number ≠ [] := by
        intro hnil; rw [hnil] at hvalid; cases hvalid
      obtain ⟨p, hp, hact⟩ := get_valid_actions_player betting seat.seat_number hne
      have hbounds := valid_bet_raise_bounds betting seat.seat_number p hp
      have hlt : amount < p.stack + p.bet_this_round := by
        rcases hmin.1 with hbet | hraise
        · subst hbet
          obtain ⟨hcb, hbb⟩ := hbounds.1 hvalid
          obtain ⟨hmr, hzero⟩ := hinv hcb
          have hpz : p.bet_this_round = 0 :=
            hzero (seat.seat_number, p) (alist_get_mem _ _ _ hp)
          have := hmin.2
          unfold BettingState.get_min_raise_to at this
          omega
        · subst hraise
          have := hbounds.2 hvalid
          have h2 := hmin.2
          unfold BettingState.get_min_raise_to at h2
          omega
      rcases hmin.1 with hbet | hraise
      · subst hbet
        unfold BettingState.process_action
        simp only [hp]
        rw [if_pos ⟨hmin.2, hlt⟩]
        exact ⟨rfl, _, rfl⟩
      · subst hraise
        unfold BettingState.process_action
        simp only [hp]
        rw [if_pos ⟨hmin.2, hlt⟩]
        exact ⟨rfl, _, rfl⟩

/-- C6 witness: on the started heads-up hand it is agent 2's turn with
current_bet 10, so BET is not a valid action; process_action rejects it
and leaves the state unchanged. -/
theorem C6_witness :
    (process_action hu_started 2 ActionType.BET 50).1 = hu_started ∧
    ∃ e, (process_action hu_started 2 ActionType.BET 50).2 =
      Except.error e := by
  refine C6_rejection_invariance hu_started 2 ActionType.BET 50 _ _ rfl rfl
    (fun h => absurd h (by decide)) ?_
  intro seat hseat
  rw [show hu_started.table.get_seat_by_agent 2 =
    some { seat_number := 1, agent_id := some 2, stack := 495,
           status := "seated",
           hole_cards := [Card.mk 4 0, Card.mk 5 0] } from rfl] at hseat
  cases hseat
  right; left
  decide

/-- the hole-card assignment determined by the ready seat numbers and
the deck order alone. -/
def dealt_holes (ks : List Nat) (deck : List Card) : List (Nat × List Card) :=
  match ks with
  | [] => []
  | k :: rest => (k, deck.take 2) :: dealt_holes rest (deck.drop 2)

/-- a successful dealing loop assigns exactly dealt_holes and drops two
cards per ready seat, independently of the table threaded through. -/
theorem deal_hole_cards_spec (ks : List Nat) (t : TableState) (h : HandState)
    (hok : (deal_hole_cards ks t h).2.2 = Except.ok ()) :
    (deal_hole_cards ks t h).2.1.hole_cards =
      h.hole_cards ++ dealt_holes ks h.deck ∧
    (deal_hole_cards ks t h).2.1.deck = h.deck.drop (2 * ks.length) := by
  induction ks generalizing t h with
  | nil => simp [deal_hole_cards, dealt_holes]
  | cons k rest ih =>
    unfold deal_hole_cards at hok ⊢
    split at hok
    next e heq => simp at hok
    next pr cards deck heq =>
      split at hok
      next heq2 => simp at hok
      next t2 heq2 =>
        have hih := ih t2
          { h with deck := deck, hole_cards := h.hole_cards ++ [(k, cards)] }
          hok
        have hcards : cards = h.deck.take 2 ∧ deck = h.deck.drop 2 := by
          unfold deal at heq
          split at heq
          · cases heq
          · cases heq; exact ⟨rfl, rfl⟩
        obtain ⟨hc1, hc2⟩ := hcards
        subst hc1 hc2
        refine ⟨?_, ?_⟩
        · rw [hih.1]
          simp [dealt_holes]
        · rw [hih.2]
          simp only [List.drop_drop]
          congr 1
          simp only [List.length_cons]
          omega

/-- successful start_hand characterization: the new hand's hole cards
and remaining deck are dealt_holes / drop over the fresh seeded deck
and the ready seat numbers. -/
theorem start_hand_hole_deck (mk_deck : Option Int → List Card)
    (s : EngineState) (hok : (start_hand mk_deck s).2 = Except.ok ()) :
    ((start_hand mk_deck s).1.current_hand.map fun h =>
      (h.hole_cards, h.deck)) =
    some (dealt_holes (s.table.get_ready_players.map fun se => se.seat_number)
            (mk_deck s.seed),
          (mk_deck s.seed).drop
            (2 * (s.table.get_ready_players.map fun se => se.seat_number).length)) := by
  unfold start_hand at hok ⊢
  split at hok
  next hsome => simp at hok
  next hsome =>
  dsimp only at hok ⊢
  split at hok
  next hlen => simp at hok
  next hlen =>
  split at hok
  next t1 hand1 e hdeal => simp at hok
  next t1 hand1 hdeal =>
    have hspec := deal_hole_cards_spec _ _ _ (by rw [hdeal])
    rw [hdeal] at hspec
    dsimp only at hspec
    split at hok
    next e hblinds => simp at hok
    next pair sb_seat bb_seat t2 hblinds =>
      split at hok
      next hsb _hx => simp at hok
      next _hy hbb => simp at hok
      next sbs bbs hsb hbb =>
        split at hok
        next hsbp => simp at hok
        next sbp hsbp =>
          split at hok
          next hset3 => simp at hok
          next t3 hset3 =>
            split at hok
            next hbbp => simp at hok
            next bbp hbbp =>
              split at hok
              next hset4 => simp at hok
              next t4 hset4 =>
                split at hok
                next e hfirst => simp at hok
                next first t5 hfirst =>
                  simp [add_event, hspec.1, hspec.2, hsome, hlen]

/-- C9: with a non-None seed, every start_hand builds its fresh deck
from that same seed, so any two hands started with the same ready seat
numbers deal the identical hole cards and leave the identical deck for
the community cards. -/
theorem C9_seeded_determinism (mk_deck : Option Int → List Card)
    (s₁ s₂ : EngineState) (v : Int)
    (h₁ : s₁.seed = some v) (h₂ : s₂.seed = some v)
    (hr : s₁.table.get_ready_players.map (fun se => se.seat_number) =
      s₂.table.get_ready_players.map fun se => se.seat_number)
    (hok₁ : (start_hand mk_deck s₁).2 = Except.ok ())
    (hok₂ : (start_hand mk_deck s₂).2 = Except.ok ()) :
    ((start_hand mk_deck s₁).1.current_hand.map fun h =>
      (h.hole_cards, h.deck)) =
    ((start_hand mk_deck s₂).1.current_hand.map fun h =>
      (h.hole_cards, h.deck)) := by
  rw [start_hand_hole_deck mk_deck s₁ hok₁, start_hand_hole_deck mk_deck s₂ hok₂,
    hr, h₁, h₂]

/-- seeded heads-up engine, both players seated, before its first
hand. -/
def C9_s1 : EngineState :=
  (run_ops mk_ordered (init_engine cfg2 (some 7) {}, 0)
    [Op.seat_player 1 0 500, Op.seat_player 2 1 500]).1

/-- the same engine after one complete hand (checked down to
showdown). -/
def C9_s2 : EngineState :=
  (run_ops mk_ordered (C9_s1, 0)
    [Op.start_hand,
     Op.process_action 2 ActionType.CALL 0, Op.process_action 1 ActionType.CHECK 0,
     Op.process_action 1 ActionType.CHECK 0, Op.process_action 2 ActionType.CHECK 0,
     Op.process_action 1 ActionType.CHECK 0, Op.process_action 2 ActionType.CHECK 0,
     Op.process_action 1 ActionType.CHECK 0, Op.process_action 2 ActionType.CHECK 0]).1

/-- C9 witness: the hand started after a completed hand deals exactly
the same hole cards and deck as the first hand of the session. -/
theorem C9_witness :
    ((start_hand mk_ordered C9_s1).1.current_hand.map fun h =>
      (h.hole_cards, h.deck)) =
    ((start_hand mk_ordered C9_s2).1.current_hand.map fun h =>
      (h.hole_cards, h.deck)) :=
  C9_seeded_determinism mk_ordered C9_s1 C9_s2 7 rfl rfl (by decide)
    (by rfl) (by rfl)

/-- _complete_hand always drops the hand. -/
theorem complete_hand_no_hand (s : EngineState) :
    (complete_hand s).current_hand = none := rfl

/-- _add_event only appends to the event list of the live hand. -/
theorem add_event_hand (s : EngineState) (t : String) (a : Option Nat)
    (h : HandState) (hh : s.current_hand = some h) :
    (add_event s t a).current_hand =
      some { h with events := h.events ++
        [{ sequence := s.event_sequence + 1, etype := t, agent_id := a }] } := by
  unfold add_event
  simp only [hh]

/-- pot preservation through _add_event. -/
theorem add_event_pot (s : EngineState) (t : String) (a : Option Nat)
    (h : HandState) (hh : s.current_hand = some h) (h' : HandState)
    (hh' : (add_event s t a).current_hand = some h') : h'.pot = h.pot := by
  rw [add_event_hand s t a h hh] at hh'
  simp only [Option.some.injEq] at hh'
  rw [← hh']

/-- pot preservation through _add_event on a state whose hand was just
replaced. -/
theorem add_event_state_pot (s : EngineState) (h : HandState) (t_ : String)
    (a : Option Nat) (h' : HandState)
    (hh' : (add_event { s with current_hand := some h } t_ a).current_hand =
      some h') : h'.pot = h.pot := by
  have he := add_event_hand { s with current_hand := some h } t_ a h rfl
  rw [he] at hh'
  simp only [Option.some.injEq] at hh'
  rw [← hh']

/-- _handle_everyone_folded never changes the pot field of a hand that
survives it. -/
theorem handle_everyone_folded_pot (s : EngineState) (h' : HandState)
    (hh' : (handle_everyone_folded s).1.current_hand = some h') :
    ∃ h, s.current_hand = some h ∧ h'.pot = h.pot := by
  unfold handle_everyone_folded at hh'
  split at hh'
  next hnone => exact ⟨h', hh', rfl⟩
  next hand hh =>
    split at hh'
    next hbnone => exact ⟨h', hh', rfl⟩
    next betting hb =>
      split at hh'
      next w hw =>
        dsimp only at hh'
        split at hh'
        next hset =>
          refine ⟨hand, hh, ?_⟩
          simp only [Option.some.injEq] at hh'
          rw [← hh']
        next t hset =>
          rw [complete_hand_no_hand] at hh'
          cases hh'
      next hother => exact ⟨h', hh', rfl⟩

/-- _handle_showdown never changes the pot field of a hand that
survives it. -/
theorem handle_showdown_pot (s : EngineState) (h' : HandState)
    (hh' : (handle_showdown s).1.current_hand = some h') :
    ∃ h, s.current_hand = some h ∧ h'.pot = h.pot := by
  unfold handle_showdown at hh'
  split at hh'
  next hnone => exact ⟨h', hh', rfl⟩
  next hand hh =>
    split at hh'
    next hbnone => exact ⟨h', hh', rfl⟩
    next betting hb =>
      dsimp only at hh'
      split at hh'
      next hone =>
        obtain ⟨hm, hmid, hpot⟩ := handle_everyone_folded_pot _ _ hh'
        simp only [Option.some.injEq] at hmid
        exact ⟨hand, hh, by rw [hpot, ← hmid]⟩
      next hmany =>
        split at hh'
        next e heval =>
          refine ⟨hand, hh, ?_⟩
          simp only [Option.some.injEq] at hh'
          rw [← hh']
        next evals heval =>
          split at hh'
          next hnil =>
            refine ⟨hand, hh, ?_⟩
            simp only [Option.some.injEq] at hh'
            rw [← hh']
          next s0 b0 rest hsort =>
            split at hh'
            next t e hdist =>
              refine ⟨hand, hh, ?_⟩
              simp only [Option.some.injEq] at hh'
              rw [← hh']
            next t hdist =>
              rw [complete_hand_no_hand] at hh'
              cases hh'

/-- one runout iteration only deals cards. -/
theorem runout_step_pot (h : HandState) : (runout_step h).1.pot = h.pot := by
  unfold runout_step
  split
  · split
    · rfl
    · split <;> rfl
  · split
    · rfl
    · split <;> rfl
  · split
    · rfl
    · split <;> rfl
  · rfl

/-- the runout loop only deals cards. -/
theorem runout_loop_pot (fuel : Nat) (h : HandState) :
    (runout_loop h fuel).1.pot = h.pot := by
  induction fuel generalizing h with
  | zero =>
    unfold runout_loop
    split <;> rfl
  | succ n ih =>
    unfold runout_loop
    split
    next hlt =>
      split
      next h2 e heq =>
        have := runout_step_pot h
        rw [heq] at this
        exact this
      next h2 a heq =>
        have hstep := runout_step_pot h
        rw [heq] at hstep
        split
        next => exact hstep
        next => rw [ih h2]; exact hstep
    next => rfl

/-- _deal_remaining_and_showdown never changes the pot field of a hand
that survives it. -/
theorem deal_remaining_pot (s : EngineState) (h' : HandState)
    (hh' : (deal_remaining_and_showdown s).1.current_hand = some h') :
    ∃ h, s.current_hand = some h ∧ h'.pot = h.pot := by
  unfold deal_remaining_and_showdown at hh'
  split at hh'
  next hnone => exact ⟨h', hh', rfl⟩
  next hand hh =>
    split at hh'
    next h2 e heq =>
      have hloop := runout_loop_pot 3 hand
      rw [heq] at hloop
      refine ⟨hand, hh, ?_⟩
      simp only [Option.some.injEq] at hh'
      rw [← hh']
      exact hloop
    next h2 a heq =>
      have hloop := runout_loop_pot 3 hand
      rw [heq] at hloop
      obtain ⟨hm, hmid, hpot⟩ := handle_showdown_pot _ _ hh'
      rw [add_event_hand _ _ _ h2 rfl] at hmid
      simp only [Option.some.injEq] at hmid
      refine ⟨hand, hh, ?_⟩
      rw [hpot, ← hmid]
      exact hloop

/-- _advance_to_next_phase never changes the pot field of a hand that
survives it. -/
theorem advance_to_next_phase_pot (s : EngineState) (h' : HandState)
    (hh' : (advance_to_next_phase s).1.current_hand = some h') :
    ∃ h, s.current_hand = some h ∧ h'.pot = h.pot := by
  unfold advance_to_next_phase at hh'
  split at hh'
  next hnone => exact ⟨h', hh', rfl⟩
  next hand hh =>
    split at hh'
    next hbnone => exact ⟨h', hh', rfl⟩
    next betting hb =>
      split at hh'
      · split at hh'
        · exact handle_showdown_pot _ _ hh'
        · split at hh'
          next s2 e hdr =>
            exact deal_remaining_pot _ _ (by rw [hdr]; exact hh')
          next s2 hdr =>
            exact deal_remaining_pot _ _ (by rw [hdr]; exact hh')
      · dsimp only at hh'
        split at hh'
        next hnotr => exact ⟨h', hh', rfl⟩
        next tr htr =>
          split at hh'
          · exact handle_showdown_pot _ _ hh'
          · split at hh'
            next e hburn => exact ⟨h', hh', rfl⟩
            next deck2 hburn =>
              split at hh'
              next e hdealc =>
                refine ⟨hand, hh, ?_⟩
                simp only [Option.some.injEq] at hh'
                rw [← hh']
              next cards deck3 hdealc =>
                split at hh'
                next e hact =>
                  refine ⟨hand, hh, ?_⟩
                  have hp := add_event_state_pot _ _ _ _ h' hh'
                  exact hp
                next active hact =>
                  split at hh'
                  next e hfta =>
                    refine ⟨hand, hh, ?_⟩
                    have hp := add_event_state_pot _ _ _ _ h' hh'
                    exact hp
                  next fta hfta =>
                    split at hh'
                    next hnone2 =>
                      refine ⟨hand, hh, ?_⟩
                      have hp := add_event_state_pot _ _ _ _ h' hh'
                      exact hp
                    next hand2 hh2 =>
                      simp only [Option.some.injEq] at hh'
                      refine ⟨hand, hh, ?_⟩
                      rw [← hh']
                      have hp := add_event_state_pot _ _ _ _ hand2 hh2
                      exact hp

/-- pot preservation through _add_event with the engine state written
out componentwise (the form process_action produces). -/
theorem add_event_mk_pot (tb : TableState) (sd : Option Int)
    (rk : RakeConfig) (h : HandState) (es : Nat) (tr : Int) (t_ : String)
    (a : Option Nat) (h' : HandState)
    (hh' : (add_event (EngineState.mk tb sd rk (some h) es tr) t_ a).current_hand =
      some h') : h'.pot = h.pot := by
  have he := add_event_hand (EngineState.mk tb sd rk (some h) es tr) t_ a h rfl
  rw [he] at hh'
  simp only [Option.some.injEq] at hh'
  rw [← hh']

/-- process_action never changes the pot field of a hand that survives
it. -/
theorem process_action_pot (s : EngineState) (agent : Nat)
    (act : ActionType) (amount : Int) (h' : HandState)
    (hh' : (process_action s agent act amount).1.current_hand = some h') :
    ∃ h, s.current_hand = some h ∧ h'.pot = h.pot := by
  unfold process_action at hh'
  split at hh'
  next => exact ⟨h', hh', rfl⟩
  next hand hh =>
    split at hh'
    next => exact ⟨h', hh', rfl⟩
    next betting hb =>
      split at hh'
      next => exact ⟨h', hh', rfl⟩
      next seat hseat =>
        split at hh'
        next => exact ⟨h', hh', rfl⟩
        next =>
          split at hh'
          next => exact ⟨h', hh', rfl⟩
          next =>
            dsimp only at hh'
            split at hh'
            next e hbp => exact ⟨h', hh', rfl⟩
            next betting2 rc hbp =>
              split at hh'
              next =>
                refine ⟨hand, hh, ?_⟩
                simp only [Option.some.injEq] at hh'
                rw [← hh']
              next pb hpb =>
                split at hh'
                next =>
                  refine ⟨hand, hh, ?_⟩
                  simp only [Option.some.injEq] at hh'
                  rw [← hh']
                next t hset =>
                  split at hh'
                  next =>
                    obtain ⟨hm, hmid, hpot⟩ :=
                      handle_everyone_folded_pot _ _ hh'
                    have hp := add_event_mk_pot _ _ _ _ _ _ _ _ hm hmid
                    exact ⟨hand, hh, by rw [hpot, hp]⟩
                  next =>
                    split at hh'
                    next =>
                      obtain ⟨hm, hmid, hpot⟩ :=
                        advance_to_next_phase_pot _ _ hh'
                      have hp := add_event_mk_pot _ _ _ _ _ _ _ _ hm hmid
                      exact ⟨hand, hh, by rw [hpot, hp]⟩
                    next =>
                      split at hh'
                      next nxt hn =>
                        split at hh'
                        next hnone3 =>
                          refine ⟨hand, hh, ?_⟩
                          have hp := add_event_mk_pot _ _ _ _ _ _ _ _ h' hh'
                          exact hp
                        next hand2 hh2 =>
                          simp only [Option.some.injEq] at hh'
                          refine ⟨hand, hh, ?_⟩
                          rw [← hh']
                          have hp := add_event_mk_pot _ _ _ _ _ _ _ _ hand2 hh2
                          exact hp
                      next hn =>
                        refine ⟨hand, hh, ?_⟩
                        have hp := add_event_mk_pot _ _ _ _ _ _ _ _ h' hh'
                        exact hp

/-- the dealing loop never touches the pot. -/
theorem deal_hole_cards_pot (ks : List Nat) (t : TableState) (h : HandState) :
    (deal_hole_cards ks t h).2.1.pot = h.pot := by
  induction ks generalizing t h with
  | nil => rfl
  | cons k rest ih =>
    unfold deal_hole_cards
    split
    · rfl
    next pr cards deck heq =>
      split
      · rfl
      next t2 heq2 => exact ih t2 _

/-- successful start_hand leaves hand.pot equal to the betting pot,
both being the posted blinds. -/
theorem start_hand_pot (mk_deck : Option Int → List Card) (s : EngineState)
    (hok : (start_hand mk_deck s).2 = Except.ok ()) :
    ∃ hand b, (start_hand mk_deck s).1.current_hand = some hand ∧
      hand.betting = some b ∧ hand.pot = b.pot := by
  unfold start_hand at hok ⊢
  split at hok
  next hsome => simp at hok
  next hsome =>
  dsimp only at hok ⊢
  split at hok
  next hlen => simp at hok
  next hlen =>
  split at hok
  next t1 hand1 e hdeal => simp at hok
  next t1 hand1 hdeal =>
    have hpot := congrArg (fun x => x.2.1.pot) hdeal
    simp only [deal_hole_cards_pot] at hpot
    split at hok
    next e hblinds => simp at hok
    next pair sb_seat bb_seat t2 hblinds =>
      split at hok
      next hsb _hx => simp at hok
      next _hy hbb => simp at hok
      next sbs bbs hsb hbb =>
        split at hok
        next hsbp => simp at hok
        next sbp hsbp =>
          split at hok
          next hset3 => simp at hok
          next t3 hset3 =>
            split at hok
            next hbbp => simp at hok
            next bbp hbbp =>
              split at hok
              next hset4 => simp at hok
              next t4 hset4 =>
                split at hok
                next e hfirst => simp at hok
                next first t5 hfirst =>
                  rw [if_neg hsome, if_neg hlen]
                  simp only [add_event]
                  refine ⟨_, _, rfl, rfl, ?_⟩
                  dsimp only
                  omega

/-- C10: start_hand leaves hand.pot at the posted blinds (equal to the
initial betting pot), process_action never modifies hand.pot — only
BettingState.pot moves — and to_public_dict reports hand.pot, so the
snapshot pot stays at the blinds for the whole hand: concretely 15 in
the heads-up run while the betting pot has grown to 20 at the flop. -/
theorem C10_public_pot :
    (∀ mk_deck s, (start_hand mk_deck s).2 = Except.ok () →
      ∃ hand b, (start_hand mk_deck s).1.current_hand = some hand ∧
        hand.betting = some b ∧ hand.pot = b.pot ∧
        hand.to_public_dict.pot = hand.pot) ∧
    (∀ s agent act amount h h', s.current_hand = some h →
      (process_action s agent act amount).1.current_hand = some h' →
      h'.pot = h.pot ∧ h'.to_public_dict.pot = h.to_public_dict.pot) ∧
    (hu_started.current_hand.map fun h => h.to_public_dict.pot) = some 15 ∧
    (hu_flop_state.current_hand.map fun h => h.to_public_dict.pot) = some 15 ∧
    (hu_flop_state.current_hand.bind fun h => h.betting.map fun b => b.pot) =
      some 20 := by
  refine ⟨?_, ?_, by decide, by decide, by decide⟩
  · intro mk s hok
    obtain ⟨hand, b, h1, h2, h3⟩ := start_hand_pot mk s hok
    exact ⟨hand, b, h1, h2, h3, rfl⟩
  · intro s agent act amount h h' hh hh'
    obtain ⟨h0, hh0, hpot⟩ := process_action_pot s agent act amount h' hh'
    injection (hh.symm.trans hh0) with he
    subst he
    exact ⟨hpot, hpot⟩

/-- heads-up engine with both players seated, no hand yet. -/
def hu_seated : EngineState :=
  (run_ops mk_ordered (init_engine cfg2 none {}, 0)
    [Op.seat_player 1 0 500, Op.seat_player 2 1 500]).1

/-- C10 witness: starting a hand from the seated heads-up table yields
a hand whose pot field equals its betting pot (the posted blinds). -/
theorem C10_witness :
    ∃ hand b, (start_hand mk_ordered hu_seated).1.current_hand = some hand ∧
      hand.betting = some b ∧ hand.pot = b.pot ∧
      hand.to_public_dict.pot = hand.pot :=
  C10_public_pot.1 mk_ordered hu_seated (by rfl)

/-- inserting is a permutation of consing. -/
theorem insert_sorted_perm {α : Type} (lt : α → α → Bool) (x : α)
    (l : List α) : (insert_sorted lt x l).Perm (x :: l) := by
  induction l with
  | nil => exact List.Perm.refl _
  | cons y ys ih =>
    unfold insert_sorted
    split
    · exact List.Perm.refl _
    · exact (List.Perm.cons y ih).trans (List.Perm.swap x y ys)

/-- stable_sort permutes its input. -/
theorem stable_sort_perm {α : Type} (lt : α → α → Bool) (l : List α) :
    (stable_sort lt l).Perm l := by
  suffices h : ∀ (l acc : List α),
      (l.foldl (fun a x => insert_sorted lt x a) acc).Perm (acc ++ l) by
    simpa using h l []
  intro l
  induction l with
  | nil => intro acc; simp
  | cons x xs ih =>
    intro acc
    refine (ih (insert_sorted lt x acc)).trans ?_
    refine (((insert_sorted_perm lt x acc).append_right xs).trans ?_)
    exact List.perm_middle.symm

/-- insertion preserves descending sortedness for the strict greater
comparison on Nat. -/
theorem insert_sorted_sorted_ge (x : Nat) (l : List Nat)
    (hl : l.Sorted (· ≥ ·)) :
    (insert_sorted (fun a b => a > b) x l).Sorted (· ≥ ·) := by
  induction l with
  | nil => simp [insert_sorted]
  | cons y ys ih =>
    unfold insert_sorted
    rw [List.sorted_cons] at hl
    split
    next hxy =>
      simp only [decide_eq_true_eq] at hxy
      rw [List.sorted_cons]
      refine ⟨?_, List.sorted_cons.mpr hl⟩
      intro b hb
      rcases List.mem_cons.mp hb with rfl | hb
      · omega
      · have := hl.1 b hb
        omega
    next hxy =>
      simp only [decide_eq_true_eq] at hxy
      rw [List.sorted_cons]
      refine ⟨?_, ih hl.2⟩
      intro b hb
      have hb2 := (insert_sorted_perm (fun a b => a > b) x ys).mem_iff.mp hb
      rcases List.mem_cons.mp hb2 with rfl | hb2
      · omega
      · exact hl.1 b hb2

/-- stable_sort by strict greater yields a descending-sorted list. -/
theorem stable_sort_sorted_ge (l : List Nat) :
    (stable_sort (fun a b => a > b) l).Sorted (· ≥ ·) := by
  suffices h : ∀ (l acc : List Nat), acc.Sorted (· ≥ ·) →
      (l.foldl (fun a x => insert_sorted (fun a b => a > b) x a) acc).Sorted
        (· ≥ ·) by
    exact h l [] (by simp)
  intro l
  induction l with
  | nil => intro acc h; simpa using h
  | cons x xs ih =>
    intro acc h
    exact ih _ (insert_sorted_sorted_ge x acc h)

/-- permuted lists have the same descending sort. -/
theorem stable_sort_eq_of_perm (l₁ l₂ : List Nat) (h : l₁.Perm l₂) :
    stable_sort (fun a b => a > b) l₁ = stable_sort (fun a b => a > b) l₂ := by
  haveI : IsAntisymm Nat (· ≥ ·) := ⟨fun a b h1 h2 => le_antisymm h2 h1⟩
  exact List.eq_of_perm_of_sorted
    ((stable_sort_perm _ l₁).trans (h.trans (stable_sort_perm _ l₂).symm))
    (stable_sort_sorted_ge l₁) (stable_sort_sorted_ge l₂)

/-- all_equal tests exactly pairwise equality of the list. -/
theorem all_equal_iff (l : List Nat) :
    all_equal l = true ↔ ∀ a ∈ l, ∀ b ∈ l, a = b := by
  cases l with
  | nil => simp [all_equal]
  | cons x xs =>
    simp only [all_equal, List.all_eq_true, decide_eq_true_eq]
    constructor
    · intro h a ha b hb
      have hax : a = x ∨ a ∈ xs := List.mem_cons.mp ha
      have hbx : b = x ∨ b ∈ xs := List.mem_cons.mp hb
      rcases hax with ha1 | ha1 <;> rcases hbx with hb1 | hb1
      · rw [ha1, hb1]
      · rw [ha1, h b hb1]
      · rw [hb1, h a ha1]
      · rw [h a ha1, h b hb1]
    · intro h y hy
      exact h y (List.mem_cons_of_mem x hy) x (List.mem_cons_self x xs)

/-- all_equal is invariant under permutation. -/
theorem all_equal_perm (l₁ l₂ : List Nat) (h : l₁.Perm l₂) :
    all_equal l₁ = all_equal l₂ := by
  cases hv : all_equal l₂ with
  | true =>
    exact (all_equal_iff l₁).mpr fun a ha b hb =>
      (all_equal_iff l₂).mp hv a (h.mem_iff.mp ha) b (h.mem_iff.mp hb)
  | false =>
    by_contra hne
    have h1 : all_equal l₁ = true := by
      cases hx : all_equal l₁ with
      | false => exact absurd hx hne
      | true => rfl
    have h2 : all_equal l₂ = true := (all_equal_iff l₂).mpr
      fun a ha b hb =>
        (all_equal_iff l₁).mp h1 a (h.mem_iff.mpr ha) b (h.mem_iff.mpr hb)
    rw [h2] at hv
    cases hv

/-- score5 is invariant under permutation of its five cards. -/
theorem score5_perm (l₁ l₂ : List Card) (h : l₁.Perm l₂) :
    score5 l₁ = score5 l₂ := by
  unfold score5
  rw [stable_sort_eq_of_perm (l₁.map fun c => c.rank) (l₂.map fun c => c.rank)
    (h.map _),
    all_equal_perm (l₁.map fun c => c.suit) (l₂.map fun c => c.suit) (h.map _)]

/-- the fold of min is a lower bound of the list. -/
theorem foldr_min_le (T : Nat) (l : List Nat) (x : Nat) (hx : x ∈ l) :
    l.foldr min T ≤ x := by
  induction l with
  | nil => cases hx
  | cons y ys ih =>
    rcases List.mem_cons.mp hx with rfl | hx
    · exact min_le_left _ _
    · exact le_trans (min_le_right _ _) (ih hx)

/-- the fold of min is bounded by its initial value. -/
theorem foldr_min_le_init (T : Nat) (l : List Nat) : l.foldr min T ≤ T := by
  induction l with
  | nil => exact le_refl _
  | cons y ys ih => exact le_trans (min_le_right _ _) ih

/-- the fold of min is the initial value or an element. -/
theorem foldr_min_mem (T : Nat) (l : List Nat) :
    l.foldr min T = T ∨ l.foldr min T ∈ l := by
  induction l with
  | nil => exact Or.inl rfl
  | cons y ys ih =>
    rcases min_choice y (ys.foldr min T) with hm | hm
    · exact Or.inr (by rw [List.foldr_cons, hm]; exact List.mem_cons_self _ _)
    · rcases ih with ih | ih
      · exact Or.inl (by rw [List.foldr_cons, hm, ih])
      · exact Or.inr (by rw [List.foldr_cons, hm]; exact List.mem_cons_of_mem _ ih)

/-- one direction of best_score invariance. -/
theorem best_score_le_of_perm (l₁ l₂ : List Card) (h : l₁.Perm l₂) :
    best_score l₂ ≤ best_score l₁ := by
  unfold best_score
  rcases foldr_min_mem 1000000000 ((l₁.sublistsLen 5).map score5) with hm | hm
  · rw [hm]; exact foldr_min_le_init _ _
  · obtain ⟨s, hs, hscore⟩ := List.mem_map.mp hm
    obtain ⟨hsub, hlen⟩ := List.mem_sublistsLen.mp hs
    obtain ⟨s2, hs2p, hs2sub⟩ := (hsub.subperm.trans h.subperm)
    have hs2 : s2 ∈ l₂.sublistsLen 5 :=
      List.mem_sublistsLen.mpr ⟨hs2sub, by rw [hs2p.length_eq, hlen]⟩
    have hsc : score5 s2 = score5 s := score5_perm s2 s hs2p
    calc ((l₂.sublistsLen 5).map score5).foldr min 1000000000
        ≤ score5 s2 := foldr_min_le _ _ _ (List.mem_map.mpr ⟨s2, hs2, rfl⟩)
      _ = ((l₁.sublistsLen 5).map score5).foldr min 1000000000 := by
          rw [hsc, hscore]

/-- best_score is invariant under permutation of the card list. -/
theorem best_score_perm (l₁ l₂ : List Card) (h : l₁.Perm l₂) :
    best_score l₁ = best_score l₂ :=
  le_antisymm (best_score_le_of_perm l₂ l₁ h.symm) (best_score_le_of_perm l₁ l₂ h)

/-- C8: on legal inputs (2 hole cards, 3-5 community cards, all
distinct) the modelled evaluator succeeds and its score depends only on
the multiset of the combined cards: any reordering of hole or community
cards, and any reassignment of which cards are hole versus community
within the same combined card set, yields the same score. -/
theorem C8_evaluator_invariance (h₁ c₁ h₂ c₂ : List Card)
    (hl₁ : h₁.length = 2) (hc₁ : 3 ≤ c₁.length ∧ c₁.length ≤ 5)
    (hl₂ : h₂.length = 2) (hc₂ : 3 ≤ c₂.length ∧ c₂.length ≤ 5)
    (hnd : (h₁ ++ c₁).Nodup)
    (hperm : (h₁ ++ c₁).Perm (h₂ ++ c₂)) :
    ∃ sc, evaluate h₁ c₁ = Except.ok sc ∧ evaluate h₂ c₂ = Except.ok sc := by
  refine ⟨best_score (h₁ ++ c₁), ?_, ?_⟩
  · unfold evaluate
    rw [if_neg (by omega), if_neg (by push_neg; omega)]
  · unfold evaluate
    rw [if_neg (by omega), if_neg (by push_neg; omega)]
    rw [best_score_perm _ _ hperm]

/-- C8 witness: the royal-flush cards scored with two different
hole/community assignments give the same score. -/
theorem C8_witness :
    ∃ sc, evaluate [Card.mk 14 2, Card.mk 13 2]
      [Card.mk 12 2, Card.mk 11 2, Card.mk 10 2] = Except.ok sc ∧
    evaluate [Card.mk 12 2, Card.mk 10 2]
      [Card.mk 14 2, Card.mk 11 2, Card.mk 13 2] = Except.ok sc :=
  C8_evaluator_invariance _ _ _ _ (by decide) (by decide) (by decide)
    (by decide) (by decide) (by decide)

/-! ### Chip-conservation infrastructure for C1 -/

/-- total chips sitting in the seats. -/
def seats_sum (t : TableState) : Int :=
  (t.seats.map fun se => se.stack).sum

/-- the live betting pot, 0 between hands. -/
def hand_pot_of (s : EngineState) : Int :=
  match s.current_hand with
  | some h =>
    match h.betting with
    | some b => b.pot
    | none => 0
  | none => 0

theorem chip_total_eq (s : EngineState) :
    chip_total s = seats_sum s.table + hand_pot_of s + s.total_rake_collected :=
  rfl

/-- every seat of the table is either occupied (agent and seated
status) or fully cleared with a zero stack. -/
def seat_wf (se : SeatState) : Prop :=
  (se.agent_id.isSome = true ∧ se.status = "seated") ∨
  (se.agent_id = none ∧ se.status = "empty" ∧ se.stack = 0)

/-- seat i of the list carries seat_number i, and every seat is
well-formed. -/
def table_wf (t : TableState) : Prop :=
  (∀ i se, t.seats.get? i = some se → se.seat_number = i) ∧
  (∀ se ∈ t.seats, seat_wf se)

/-- during a hand the betting dict mirrors the table: distinct keys,
and each entry points at an occupied seat holding exactly the betting
stack. -/
def betting_synced (t : TableState) (b : BettingState) : Prop :=
  (b.players.map Prod.fst).Nodup ∧
  ∀ kp ∈ b.players, ∃ se, t.seats.get? kp.1 = some se ∧
    se.stack = kp.2.stack ∧ se.is_occupied = true

/-- the conservation invariant: the table plus pot plus rake equals the
ledger, the table is well-formed, and a live hand has a synced betting
state. -/
def EngineInv (s : EngineState) (L : Int) : Prop :=
  chip_total s = L ∧ table_wf s.table ∧
  ∀ h, s.current_hand = some h →
    ∃ b, h.betting = some b ∧ betting_synced s.table b

/-- cons unfolding of the dict lookup. -/
theorem alist_get_cons {α : Type} (a : Nat) (b : α) (rest : List (Nat × α))
    (k : Nat) :
    alist_get ((a, b) :: rest) k = if a = k then some b else alist_get rest k := by
  unfold alist_get
  simp only [List.find?_cons]
  by_cases h : a = k
  · simp [h]
  · simp [h]

/-- cons unfolding of the dict write. -/
theorem alist_set_cons {α : Type} (a : Nat) (b : α) (rest : List (Nat × α))
    (k : Nat) (v : α) :
    alist_set ((a, b) :: rest) k v =
      (if a = k then (a, v) else (a, b)) :: alist_set rest k v := rfl

/-- dict read after dict write at the same key. -/
theorem alist_get_set_self {α : Type} (ps : List (Nat × α)) (k : Nat)
    (v p : α) (hp : alist_get ps k = some p) :
    alist_get (alist_set ps k v) k = some v := by
  induction ps with
  | nil => simp [alist_get] at hp
  | cons e rest ih =>
    obtain ⟨a, b⟩ := e
    rw [alist_set_cons]
    by_cases he : a = k
    · rw [if_pos he, alist_get_cons, if_pos he]
    · rw [if_neg he, alist_get_cons, if_neg he]
      rw [alist_get_cons, if_neg he] at hp
      exact ih hp

/-- dict read after dict write at another key. -/
theorem alist_get_set_other {α : Type} (ps : List (Nat × α)) (k k' : Nat)
    (v : α) (hne : k' ≠ k) :
    alist_get (alist_set ps k v) k' = alist_get ps k' := by
  induction ps with
  | nil => rfl
  | cons e rest ih =>
    obtain ⟨a, b⟩ := e
    rw [alist_set_cons, alist_get_cons (k := k')]
    by_cases he : a = k
    · rw [if_pos he, alist_get_cons]
      have : ¬a = k' := by rw [he]; exact fun hh => hne hh.symm
      rw [if_neg this, if_neg this]
      exact ih
    · rw [if_neg he, alist_get_cons]
      by_cases he' : a = k'
      · rw [if_pos he', if_pos he']
      · rw [if_neg he', if_neg he']
        exact ih

/-- dict write keeps the key list. -/
theorem alist_set_keys {α : Type} (ps : List (Nat × α)) (k : Nat) (v : α) :
    (alist_set ps k v).map Prod.fst = ps.map Prod.fst := by
  induction ps with
  | nil => rfl
  | cons e rest ih =>
    obtain ⟨a, b⟩ := e
    rw [alist_set_cons]
    by_cases he : a = k
    · rw [if_pos he]
      simpa using ih
    · rw [if_neg he]
      simpa using ih

/-- a key-preserving entry map keeps the key list. -/
theorem alist_map_keys {α : Type} (f : (Nat × α) → (Nat × α))
    (hf : ∀ e, (f e).1 = e.1) (ps : List (Nat × α)) :
    (ps.map f).map Prod.fst = ps.map Prod.fst := by
  induction ps with
  | nil => rfl
  | cons e rest ih => simp [hf e, ih]

/-- a key-preserving entry map transforms lookups pointwise. -/
theorem alist_get_map {α : Type} (f : (Nat × α) → (Nat × α))
    (hf : ∀ e, (f e).1 = e.1) (ps : List (Nat × α)) (k : Nat) :
    alist_get (ps.map f) k = (alist_get ps k).map fun p => (f (k, p)).2 := by
  induction ps with
  | nil => rfl
  | cons e rest ih =>
    obtain ⟨a, b⟩ := e
    have hfe : f (a, b) = ((f (a, b)).1, (f (a, b)).2) := rfl
    rw [List.map_cons, hfe, alist_get_cons, alist_get_cons, hf (a, b)]
    by_cases he : a = k
    · rw [if_pos he, if_pos he]
      cases he
      rfl
    · rw [if_neg he, if_neg he]
      exact ih

/-- sum of stacks after writing seat k. -/
theorem seats_map_set_sum (l : List SeatState) (k : Nat) (x se : SeatState)
    (h : l.get? k = some se) :
    ((l.set k x).map fun s2 => s2.stack).sum =
      (l.map fun s2 => s2.stack).sum - se.stack + x.stack := by
  induction l generalizing k with
  | nil => simp at h
  | cons y ys ih =>
    cases k with
    | zero =>
      simp only [List.get?] at h
      cases h
      simp [List.set]
      ring
    | succ j =>
      simp only [List.get?] at h
      simp only [List.set, List.map_cons, List.sum_cons, ih j h]
      ring

/-- the has_acted reset maps used by BET/RAISE and ALL_IN preserve
keys. -/
theorem reset_keeps_key (seat : Nat) (e : Nat × PlayerBettingState) :
    ((fun e : Nat × PlayerBettingState =>
      if e.1 ≠ seat ∧ e.2.is_active = true then
        (e.1, { e.2 with has_acted := false })
      else e) e).1 = e.1 := by
  dsimp only
  split <;> rfl

/-- the has_acted reset maps preserve stacks. -/
theorem reset_keeps_stack (seat : Nat) (e : Nat × PlayerBettingState) :
    ((fun e : Nat × PlayerBettingState =>
      if e.1 ≠ seat ∧ e.2.is_active = true then
        (e.1, { e.2 with has_acted := false })
      else e) e).2.stack = e.2.stack := by
  dsimp only
  split <;> rfl

/-- lookup of the acting seat after write-then-reset: the reset map
skips the actor, so the record just written is returned unchanged. -/
theorem alist_get_reset_set (ps : List (Nat × PlayerBettingState)) (k : Nat)
    (x q : PlayerBettingState) (h : alist_get ps k = some q) :
    alist_get ((alist_set ps k x).map fun e =>
      if e.1 ≠ k ∧ e.2.is_active then
        (e.1, { e.2 with has_acted := false })
      else e) k = some x := by
  rw [alist_get_map _ (reset_keeps_key k), alist_get_set_self _ _ _ _ h]
  simp

/-- chip accounting of one betting action: the key list is unchanged,
the actor's pot-plus-stack is conserved, and every other stack is
untouched. -/
theorem betting_process_action_spec (b : BettingState) (act : PlayerAction)
    (b' : BettingState) (rc : Bool)
    (hok : b.process_action act = Except.ok (b', rc)) :
    b'.players.map Prod.fst = b.players.map Prod.fst ∧
    ∃ p p', alist_get b.players act.player_seat = some p ∧
      alist_get b'.players act.player_seat = some p' ∧
      b'.pot + p'.stack = b.pot + p.stack ∧
      ∀ k, k ≠ act.player_seat →
        ((alist_get b'.players k).map fun q => q.stack) =
          ((alist_get b.players k).map fun q => q.stack) := by
  unfold BettingState.process_action at hok
  split at hok
  next hp0 => cases hok
  next p hp =>
    split at hok
    -- FOLD
    · simp only [Except.ok.injEq, Prod.mk.injEq] at hok
      obtain ⟨hb', _⟩ := hok
      subst hb'
      refine ⟨alist_set_keys _ _ _, p, _, hp, alist_get_set_self _ _ _ _ hp, ?_, ?_⟩
      · dsimp only
      · intro k hk
        rw [alist_get_set_other _ _ _ _ hk]
    -- CHECK
    · split at hok
      next => cases hok
      next =>
        simp only [Except.ok.injEq, Prod.mk.injEq] at hok
        obtain ⟨hb', _⟩ := hok
        subst hb'
        refine ⟨alist_set_keys _ _ _, p, _, hp, alist_get_set_self _ _ _ _ hp, ?_, ?_⟩
        · dsimp only
        · intro k hk
          rw [alist_get_set_other _ _ _ _ hk]
    -- CALL
    · simp only [Except.ok.injEq, Prod.mk.injEq] at hok
      obtain ⟨hb', _⟩ := hok
      subst hb'
      refine ⟨alist_set_keys _ _ _, p, _, hp, alist_get_set_self _ _ _ _ hp, ?_, ?_⟩
      · dsimp only; ring
      · intro k hk
        rw [alist_get_set_other _ _ _ _ hk]
    -- BET / RAISE
    · split at hok
      next => cases hok
      next =>
        dsimp only at hok
        split at hok
        next => cases hok
        next =>
          simp only [Except.ok.injEq, Prod.mk.injEq] at hok
          obtain ⟨hb', _⟩ := hok
          subst hb'
          refine ⟨?_, p, _, hp, alist_get_reset_set _ _ _ _ hp, ?_, ?_⟩
          · rw [alist_map_keys _ (reset_keeps_key act.player_seat),
              alist_set_keys]
          · dsimp only; ring
          · intro k hk
            rw [alist_get_map _ (reset_keeps_key act.player_seat),
              alist_get_set_other _ _ _ _ hk]
            cases alist_get b.players k with
            | none => rfl
            | some q =>
              simp only [Option.map_map, Option.map_some', Function.comp_apply]
              split <;> rfl
    -- RAISE (same arm body as BET: the or-pattern splits into two goals)
    · split at hok
      next => cases hok
      next =>
        dsimp only at hok
        split at hok
        next => cases hok
        next =>
          simp only [Except.ok.injEq, Prod.mk.injEq] at hok
          obtain ⟨hb', _⟩ := hok
          subst hb'
          refine ⟨?_, p, _, hp, alist_get_reset_set _ _ _ _ hp, ?_, ?_⟩
          · rw [alist_map_keys _ (reset_keeps_key act.player_seat),
              alist_set_keys]
          · dsimp only; ring
          · intro k hk
            rw [alist_get_map _ (reset_keeps_key act.player_seat),
              alist_get_set_other _ _ _ _ hk]
            cases alist_get b.players k with
            | none => rfl
            | some q =>
              simp only [Option.map_map, Option.map_some', Function.comp_apply]
              split <;> rfl
    -- ALL_IN
    · dsimp only at hok
      by_cases hro : (p.bet_this_round + p.stack > b.current_bet ∧
          p.bet_this_round + p.stack - b.current_bet ≥ b.min_raise)
      · rw [if_pos hro, if_pos hro] at hok
        simp only [Except.ok.injEq, Prod.mk.injEq] at hok
        obtain ⟨hb', _⟩ := hok
        subst hb'
        have hmp := alist_get_map _ (reset_keeps_key act.player_seat)
          b.players act.player_seat
        rw [hp] at hmp
        refine ⟨?_, p, _, hp, alist_get_set_self _ _ _ _ hmp, ?_, ?_⟩
        · rw [alist_set_keys,
            alist_map_keys _ (reset_keeps_key act.player_seat)]
        · dsimp only; ring
        · intro k hk
          rw [alist_get_set_other _ _ _ _ hk,
            alist_get_map _ (reset_keeps_key act.player_seat)]
          cases alist_get b.players k with
          | none => rfl
          | some q =>
            simp only [Option.map_map, Option.map_some', Function.comp_apply]
            split <;> rfl
      · rw [if_neg hro, if_neg hro] at hok
        simp only [Except.ok.injEq, Prod.mk.injEq] at hok
        obtain ⟨hb', _⟩ := hok
        subst hb'
        refine ⟨?_, p, _, hp, alist_get_set_self _ _ _ _ hp, ?_, ?_⟩
        · rw [alist_set_keys]
        · dsimp only; ring
        · intro k hk
          rw [alist_get_set_other _ _ _ _ hk]

/-! ### Seat-list congruence up to hole cards.  start_hand deals hole
cards into the table before posting the blinds; every chip-level fact
survives because only the hole_cards field changes. -/

/-- a seat with its hole cards stripped: exactly the chip-relevant
fields. -/
def seat_chips (se : SeatState) : SeatState :=
  { se with hole_cards := [] }

/-- any seat observation ignoring hole cards transfers across seat
lists that agree up to hole cards. -/
theorem map_eq_of_chips_eq {α : Type} (f : SeatState → α)
    (hf : ∀ se, f (seat_chips se) = f se) (l l' : List SeatState)
    (h : l'.map seat_chips = l.map seat_chips) : l'.map f = l.map f := by
  have h2 := congrArg (List.map f) h
  rw [List.map_map, List.map_map] at h2
  have hcomp : f ∘ seat_chips = f := funext hf
  rwa [hcomp] at h2

/-- pointwise reads also transfer. -/
theorem get?_chips_eq (l l' : List SeatState)
    (h : l'.map seat_chips = l.map seat_chips) (i : Nat) :
    (l'.get? i).map seat_chips = (l.get? i).map seat_chips := by
  have h2 := congrArg (fun la => la.get? i) h
  simpa [List.get?_map] using h2

/-- filtering on a hole-blind predicate and mapping a hole-blind
observation transfer. -/
theorem filter_map_chips_eq {α : Type} (p : SeatState → Bool)
    (g : SeatState → α)
    (hp : ∀ se, p (seat_chips se) = p se) (hg : ∀ se, g (seat_chips se) = g se)
    (l l' : List SeatState)
    (h : l'.map seat_chips = l.map seat_chips) :
    (l'.filter p).map g = (l.filter p).map g := by
  induction l generalizing l' with
  | nil =>
    cases l' with
    | nil => rfl
    | cons b l2 => simp at h
  | cons a l ih =>
    cases l' with
    | nil => simp at h
    | cons b l2 =>
      simp only [List.map_cons, List.cons.injEq] at h
      obtain ⟨hab, hrest⟩ := h
      have hpb : p b = p a := by rw [← hp b, ← hp a, hab]
      have hgb : g b = g a := by rw [← hg b, ← hg a, hab]
      rw [List.filter_cons, List.filter_cons, hpb]
      by_cases hpa : p a = true
      · rw [if_pos hpa, if_pos hpa, List.map_cons, List.map_cons, hgb,
          ih l2 hrest]
      · rw [if_neg hpa, if_neg hpa, ih l2 hrest]

/-- the sorted ready seat numbers only look at chip-level fields. -/
theorem ready_seat_numbers_chips (t t' : TableState)
    (h : t'.seats.map seat_chips = t.seats.map seat_chips) :
    t'.ready_seat_numbers = t.ready_seat_numbers := by
  unfold TableState.ready_seat_numbers TableState.get_ready_players
  rw [filter_map_chips_eq (fun s2 => s2.is_ready) (fun s2 => s2.seat_number)
    (fun _ => rfl) (fun _ => rfl) _ _ h]

/-- so does the ready-player count. -/
theorem ready_length_chips (t t' : TableState)
    (h : t'.seats.map seat_chips = t.seats.map seat_chips) :
    t'.get_ready_players.length = t.get_ready_players.length := by
  have h2 := filter_map_chips_eq (fun s2 => s2.is_ready)
    (fun s2 => s2.seat_number) (fun _ => rfl) (fun _ => rfl) _ _ h
  have h3 := congrArg List.length h2
  simpa [TableState.get_ready_players] using h3

/-- and the seat-stack total. -/
theorem seats_sum_chips (t t' : TableState)
    (h : t'.seats.map seat_chips = t.seats.map seat_chips) :
    seats_sum t' = seats_sum t := by
  unfold seats_sum
  rw [map_eq_of_chips_eq (fun se => se.stack) (fun _ => rfl) _ _ h]

/-- table well-formedness transfers across hole-card changes. -/
theorem table_wf_chips (t t' : TableState)
    (h : t'.seats.map seat_chips = t.seats.map seat_chips)
    (hwf : table_wf t) : table_wf t' := by
  obtain ⟨hnum, hwfs⟩ := hwf
  constructor
  · intro i se hi
    have h2 := get?_chips_eq _ _ h i
    rw [hi] at h2
    cases hse : t.seats.get? i with
    | none => rw [hse] at h2; simp at h2
    | some se0 =>
      rw [hse] at h2
      simp only [Option.map_some', Option.some.injEq] at h2
      have hn : se.seat_number = se0.seat_number := by
        have h3 := congrArg SeatState.seat_number h2
        exact h3
      rw [hn]
      exact hnum i se0 hse
  · intro se hm
    obtain ⟨i, hi⟩ := List.mem_iff_get?.mp hm
    have h2 := get?_chips_eq _ _ h i
    rw [hi] at h2
    cases hse : t.seats.get? i with
    | none => rw [hse] at h2; simp at h2
    | some se0 =>
      rw [hse] at h2
      simp only [Option.map_some', Option.some.injEq] at h2
      have ha : se.agent_id = se0.agent_id := by
        have h3 := congrArg SeatState.agent_id h2
        exact h3
      have hs : se.status = se0.status := by
        have h3 := congrArg SeatState.status h2
        exact h3
      have hst : se.stack = se0.stack := by
        have h3 := congrArg SeatState.stack h2
        exact h3
      have hwf0 := hwfs se0 (List.get?_mem hse)
      unfold seat_wf at hwf0 ⊢
      rw [ha, hs, hst]
      exact hwf0

/-! ### List and dict helpers for the conservation proof -/

/-- a found index carries an element satisfying the predicate. -/
theorem findIdx?_pred_mem {α : Type} (p : α → Bool) :
    ∀ (l : List α) (s i : Nat), List.findIdx? p l s = some i →
      ∃ x, x ∈ l ∧ p x = true := by
  intro l
  induction l with
  | nil => intro s i h; simp [List.findIdx?] at h
  | cons a rest ih =>
    intro s i h
    rw [List.findIdx?_cons] at h
    by_cases hpa : p a = true
    · exact ⟨a, List.mem_cons_self a rest, hpa⟩
    · rw [if_neg hpa] at h
      obtain ⟨x, hx, hpx⟩ := ih (s + 1) i h
      exact ⟨x, List.mem_cons_of_mem a hx, hpx⟩

/-- searching a list of numbers for a value: success means the value is
in the list. -/
theorem findIdx?_eq_mem (l : List Nat) (v : Nat) (s i : Nat)
    (h : List.findIdx? (fun x => x = v) l s = some i) : v ∈ l := by
  obtain ⟨x, hx, hpx⟩ := findIdx?_pred_mem _ l s i h
  simp only [decide_eq_true_eq] at hpx
  rwa [hpx] at hx

/-- getD at an index inside the list returns a member. -/
theorem getD_mem {α : Type} (l : List α) (i : Nat) (d : α)
    (h : i < l.length) : l.getD i d ∈ l := by
  have hg : l.getD i d = l.get ⟨i, h⟩ := by
    simp [List.getD_eq_getElem?_getD, List.getElem?_eq_getElem h]
  rw [hg]
  exact List.get_mem l i h

/-- with distinct keys a member pair is exactly what the dict lookup
returns. -/
theorem mem_alist_get {α : Type} (ps : List (Nat × α)) (kp : Nat × α)
    (hnd : (ps.map Prod.fst).Nodup) (hm : kp ∈ ps) :
    alist_get ps kp.1 = some kp.2 := by
  induction ps with
  | nil => cases hm
  | cons e rest ih =>
    obtain ⟨a, b⟩ := e
    simp only [List.map_cons, List.nodup_cons] at hnd
    rw [alist_get_cons]
    rcases List.mem_cons.mp hm with rfl | hm2
    · rw [if_pos rfl]
    · by_cases ha : a = kp.1
      · exfalso
        apply hnd.1
        rw [ha]
        exact List.mem_map.mpr ⟨kp, hm2, rfl⟩
      · rw [if_neg ha]
        exact ih hnd.2 hm2

/-- a key in the key list has a value. -/
theorem alist_get_isSome_of_mem {α : Type} (ps : List (Nat × α)) (k : Nat)
    (hm : k ∈ ps.map Prod.fst) : ∃ v, alist_get ps k = some v := by
  induction ps with
  | nil => cases hm
  | cons e rest ih =>
    obtain ⟨a, b⟩ := e
    rw [alist_get_cons]
    by_cases ha : a = k
    · rw [if_pos ha]; exact ⟨b, rfl⟩
    · rw [if_neg ha]
      apply ih
      rcases List.mem_cons.mp hm with h1 | h2
      · exact absurd h1.symm ha
      · exact h2

/-- in a well-formed table a seat is stored at its own number. -/
theorem get?_of_mem_wf (t : TableState)
    (hwf : ∀ i se, t.seats.get? i = some se → se.seat_number = i)
    (se : SeatState) (hm : se ∈ t.seats) :
    t.seats.get? se.seat_number = some se := by
  obtain ⟨i, hi⟩ := List.mem_iff_get?.mp hm
  rw [hwf i se hi]
  exact hi

/-- in a well-formed table the seat-number list is exactly the index
range. -/
theorem seats_map_number (t : TableState)
    (hwf : ∀ i se, t.seats.get? i = some se → se.seat_number = i) :
    t.seats.map SeatState.seat_number = List.range t.seats.length := by
  apply List.ext
  intro i
  rw [List.get?_map]
  cases hse : t.seats.get? i with
  | none =>
    have hlen : t.seats.length ≤ i := by
      by_contra hlt
      push_neg at hlt
      rw [List.get?_eq_get hlt] at hse
      cases hse
    rw [Option.map_none']
    symm
    exact List.get?_eq_none.mpr (by simpa using hlen)
  | some se =>
    rw [Option.map_some', hwf i se hse]
    have hlt : i < t.seats.length := by
      by_contra hge
      push_neg at hge
      rw [List.get?_eq_none.mpr hge] at hse
      cases hse
    rw [List.get?_range hlt]

/-- the ready seat numbers of a well-formed table are distinct. -/
theorem ready_numbers_nodup (t : TableState)
    (hwf : ∀ i se, t.seats.get? i = some se → se.seat_number = i) :
    (t.get_ready_players.map SeatState.seat_number).Nodup := by
  have hsub : List.Sublist (t.get_ready_players.map SeatState.seat_number)
      (t.seats.map SeatState.seat_number) :=
    (List.filter_sublist t.seats).map _
  rw [seats_map_number t hwf] at hsub
  exact hsub.nodup (List.nodup_range _)

/-- setting a position to a seat with equal chip fields leaves the
chip view unchanged. -/
theorem map_chips_set (l : List SeatState) (k : Nat) (se x : SeatState)
    (hx : seat_chips x = seat_chips se) (h : l.get? k = some se) :
    (l.set k x).map seat_chips = l.map seat_chips := by
  induction l generalizing k with
  | nil => cases h
  | cons a rest ih =>
    cases k with
    | zero =>
      simp only [List.get?] at h
      cases h
      simp only [List.set, List.map_cons, hx]
    | succ j =>
      simp only [List.get?] at h
      simp only [List.set, List.map_cons, ih j h]

/-- reading back the set position. -/
theorem get?_set_self {α : Type} (l : List α) (i : Nat) (a x : α)
    (h : l.get? i = some x) : (l.set i a).get? i = some a := by
  induction l generalizing i with
  | nil => cases h
  | cons b rest ih =>
    cases i with
    | zero => rfl
    | succ j =>
      simp only [List.get?] at h
      simp only [List.set, List.get?]
      exact ih j h

/-- a successful set_seat names the stored seat and the result. -/
theorem set_seat_eq (t : TableState) (i : Nat) (f : SeatState → SeatState)
    (t' : TableState) (h : set_seat t i f = some t') :
    ∃ se, t.seats.get? i = some se ∧
      t' = { t with seats := t.seats.set i (f se) } := by
  unfold set_seat at h
  cases hse : t.seats.get? i with
  | none => rw [hse] at h; cases h
  | some se => rw [hse] at h; cases h; exact ⟨se, rfl, rfl⟩

/-! ### Odd-chip accounting of the showdown payout loop -/

/-- total paid by distribute_pot to n winners starting at index i:
share each, plus one odd chip while the index is below the
remainder. -/
def odd_sum (share rem : Int) : Nat → Nat → Int
  | _, 0 => 0
  | i, n + 1 =>
    (share + (if (i : Int) < rem then 1 else 0)) + odd_sum share rem (i + 1) n

/-- closed form of the odd-chip sum. -/
theorem odd_sum_eval (share rem : Int) (hr : 0 ≤ rem) :
    ∀ (n i : Nat),
      odd_sum share rem i n =
        n * share + (min rem ((i : Int) + n) - min rem (i : Int)) := by
  intro n
  induction n with
  | zero => intro i; simp [odd_sum]
  | succ n ih =>
    intro i
    show (share + (if (i : Int) < rem then 1 else 0)) +
        odd_sum share rem (i + 1) n = _
    rw [ih (i + 1)]
    have hs : ((n + 1 : Nat) : Int) * share = (n : Int) * share + share := by
      push_cast
      ring
    rw [hs]
    have hc : (((i + 1 : Nat)) : Int) = (i : Int) + 1 := by push_cast; ring
    rw [hc]
    split
    next h => omega
    next h => omega

/-- a successful seat read makes set_seat succeed with the written
table. -/
theorem set_seat_some (t : TableState) (i : Nat) (f : SeatState → SeatState)
    (se : SeatState) (h : t.seats.get? i = some se) :
    set_seat t i f = some { t with seats := t.seats.set i (f se) } := by
  unfold set_seat
  rw [h]

/-- one payout written into a seat. -/
def pay_seat (amount : Int) (se : SeatState) : SeatState :=
  { se with stack := se.stack + amount }

/-- a table with one seat overwritten. -/
def put_seat (t : TableState) (a : Nat) (x : SeatState) : TableState :=
  { t with seats := t.seats.set a x }

/-- the payout of the full winner list: everyone present and occupied,
so the loop succeeds, pays n*share + remainder chips in total, and
keeps the table well-formed. -/
theorem distribute_pot_spec :
    ∀ (ws : List (Nat × Nat)) (t : TableState) (i : Nat) (share rem : Int),
      (∀ w ∈ ws, ∃ se, t.seats.get? w.1 = some se ∧ se.is_occupied = true) →
      table_wf t →
      ∃ t2, distribute_pot t ws i share rem = (t2, Except.ok ()) ∧
        seats_sum t2 = seats_sum t + odd_sum share rem i ws.length ∧
        table_wf t2 := by
  intro ws
  induction ws with
  | nil =>
    intro t i share rem hws hwf
    exact ⟨t, rfl, by simp [odd_sum], hwf⟩
  | cons w rest ih =>
    intro t i share rem hws hwf
    obtain ⟨se, hse, hocc⟩ := hws w (List.mem_cons_self w rest)
    obtain ⟨a, b⟩ := w
    have hse2 : t.seats.get? a = some se := hse
    have hstep : distribute_pot t ((a, b) :: rest) i share rem =
        distribute_pot
          (put_seat t a
            (pay_seat (share + (if (i : Int) < rem then 1 else 0)) se))
          rest (i + 1) share rem := by
      conv_lhs => rw [distribute_pot]
      rw [set_seat_some _ _ _ _ hse2]
      rfl
    have hsum1 : seats_sum
        (put_seat t a
          (pay_seat (share + (if (i : Int) < rem then 1 else 0)) se)) =
        seats_sum t + (share + (if (i : Int) < rem then 1 else 0)) := by
      show ((t.seats.set a _).map fun s2 => s2.stack).sum = _
      rw [seats_map_set_sum t.seats a _ se hse2]
      unfold seats_sum
      show (t.seats.map fun s2 => s2.stack).sum - se.stack +
        (se.stack + (share + (if (i : Int) < rem then 1 else 0))) = _
      ring
    have hwf1 : table_wf
        (put_seat t a
          (pay_seat (share + (if (i : Int) < rem then 1 else 0)) se)) := by
      constructor
      · intro j sj hj
        by_cases hja : j = a
        · subst hja
          rw [show (put_seat t j
              (pay_seat (share + (if (i : Int) < rem then 1 else 0)) se)).seats
              = t.seats.set j _ from rfl,
            get?_set_self _ _ _ _ hse2] at hj
          cases hj
          exact hwf.1 j se hse2
        · rw [show (put_seat t a
              (pay_seat (share + (if (i : Int) < rem then 1 else 0)) se)).seats
              = t.seats.set a _ from rfl,
            List.get?_set_ne _ _ (fun hh => hja hh.symm)] at hj
          exact hwf.1 j sj hj
      · intro sj hj
        obtain ⟨j, hjg⟩ := List.mem_iff_get?.mp hj
        by_cases hja : j = a
        · subst hja
          rw [show (put_seat t j
              (pay_seat (share + (if (i : Int) < rem then 1 else 0)) se)).seats
              = t.seats.set j _ from rfl,
            get?_set_self _ _ _ _ hse2] at hjg
          cases hjg
          have hwse := hwf.2 se (List.get?_mem hse2)
          unfold seat_wf at hwse ⊢
          rcases hwse with hl | hr
          · exact Or.inl hl
          · exfalso
            unfold SeatState.is_occupied at hocc
            rw [hr.1] at hocc
            simp at hocc
        · rw [show (put_seat t a
              (pay_seat (share + (if (i : Int) < rem then 1 else 0)) se)).seats
              = t.seats.set a _ from rfl,
            List.get?_set_ne _ _ (fun hh => hja hh.symm)] at hjg
          exact hwf.2 sj (List.get?_mem hjg)
    have hrest : ∀ w2 ∈ rest, ∃ se2,
        (put_seat t a
          (pay_seat (share + (if (i : Int) < rem then 1 else 0)) se)).seats.get?
            w2.1 = some se2 ∧
        se2.is_occupied = true := by
      intro w2 hw2
      obtain ⟨se2, hg2, hocc2⟩ := hws w2 (List.mem_cons_of_mem _ hw2)
      by_cases hk : w2.1 = a
      · refine ⟨pay_seat (share + (if (i : Int) < rem then 1 else 0)) se,
          ?_, hocc⟩
        rw [hk]
        exact get?_set_self _ _ _ _ hse2
      · refine ⟨se2, ?_, hocc2⟩
        show (t.seats.set a _).get? w2.1 = some se2
        rw [List.get?_set_ne _ _ (fun hh => hk hh.symm)]
        exact hg2
    obtain ⟨t2, heq, hsum, hwf2⟩ :=
      ih (put_seat t a
          (pay_seat (share + (if (i : Int) < rem then 1 else 0)) se))
        (i + 1) share rem hrest hwf1
    refine ⟨t2, by rw [hstep]; exact heq, ?_, hwf2⟩
    rw [hsum, hsum1]
    show _ = _ + ((share + (if (i : Int) < rem then 1 else 0)) +
      odd_sum share rem (i + 1) rest.length)
    ring

/-! ### Single-seat table updates -/

/-- seats of a one-seat overwrite. -/
theorem put_seat_seats (t : TableState) (a : Nat) (x : SeatState) :
    (put_seat t a x).seats = t.seats.set a x := rfl

/-- set_seat phrased through put_seat. -/
theorem set_seat_put (t : TableState) (i : Nat) (f : SeatState → SeatState)
    (se : SeatState) (h : t.seats.get? i = some se) :
    set_seat t i f = some (put_seat t i (f se)) :=
  set_seat_some t i f se h

/-- stack total after a one-seat overwrite. -/
theorem put_seat_sum (t : TableState) (a : Nat) (se x : SeatState)
    (hse : t.seats.get? a = some se) :
    seats_sum (put_seat t a x) = seats_sum t - se.stack + x.stack := by
  show ((t.seats.set a x).map fun s2 => s2.stack).sum = _
  rw [seats_map_set_sum t.seats a x se hse]
  rfl

/-- reading other seats after a one-seat overwrite. -/
theorem put_seat_get_ne (t : TableState) (a : Nat) (x : SeatState) (j : Nat)
    (hja : j ≠ a) : (put_seat t a x).seats.get? j = t.seats.get? j := by
  rw [put_seat_seats]
  exact List.get?_set_ne _ _ (fun hh => hja hh.symm)

/-- reading the overwritten seat back. -/
theorem put_seat_get_self (t : TableState) (a : Nat) (se x : SeatState)
    (hse : t.seats.get? a = some se) :
    (put_seat t a x).seats.get? a = some x := by
  rw [put_seat_seats]
  exact get?_set_self _ _ _ _ hse

/-- overwriting an occupied seat with a seat that differs only in chip
count and cards keeps the table well-formed. -/
theorem put_seat_wf (t : TableState) (a : Nat) (se x : SeatState)
    (hse : t.seats.get? a = some se)
    (hnum : x.seat_number = se.seat_number)
    (hag : x.agent_id = se.agent_id) (hst : x.status = se.status)
    (hocc : se.is_occupied = true)
    (hwf : table_wf t) : table_wf (put_seat t a x) := by
  obtain ⟨h1, h2⟩ := hwf
  constructor
  · intro j sj hj
    rw [put_seat_seats] at hj
    by_cases hja : j = a
    · subst hja
      rw [get?_set_self _ _ _ _ hse] at hj
      cases hj
      rw [hnum]
      exact h1 j se hse
    · rw [List.get?_set_ne _ _ (fun hh => hja hh.symm)] at hj
      exact h1 j sj hj
  · intro sj hj
    rw [put_seat_seats] at hj
    obtain ⟨j, hjg⟩ := List.mem_iff_get?.mp hj
    by_cases hja : j = a
    · subst hja
      rw [get?_set_self _ _ _ _ hse] at hjg
      cases hjg
      have hwse := h2 se (List.get?_mem hse)
      unfold seat_wf at hwse ⊢
      rcases hwse with hl | hr
      · exact Or.inl ⟨by rw [hag]; exact hl.1, by rw [hst]; exact hl.2⟩
      · exfalso
        unfold SeatState.is_occupied at hocc
        rw [hr.1] at hocc
        simp at hocc
    · rw [List.get?_set_ne _ _ (fun hh => hja hh.symm)] at hjg
      exact h2 sj (List.get?_mem hjg)

/-! ### Invariant preservation through events and hand completion -/

/-- the live pot as seen by hand_pot_of. -/
theorem hand_pot_some (s : EngineState) (h : HandState) (b : BettingState)
    (hh : s.current_hand = some h) (hb : h.betting = some b) :
    hand_pot_of s = b.pot := by
  unfold hand_pot_of
  simp only [hh, hb]

/-- no hand, no pot. -/
theorem hand_pot_none (s : EngineState) (hh : s.current_hand = none) :
    hand_pot_of s = 0 := by
  unfold hand_pot_of
  simp only [hh]

/-- _add_event leaves the table alone. -/
theorem add_event_table (s : EngineState) (t : String) (a : Option Nat) :
    (add_event s t a).table = s.table := by
  unfold add_event
  cases s.current_hand <;> rfl

/-- _add_event leaves the rake total alone. -/
theorem add_event_rake (s : EngineState) (t : String) (a : Option Nat) :
    (add_event s t a).total_rake_collected = s.total_rake_collected := by
  unfold add_event
  cases s.current_hand <;> rfl

/-- _add_event preserves the conservation invariant. -/
theorem add_event_inv (s : EngineState) (t : String) (a : Option Nat)
    (L : Int) (hinv : EngineInv s L) : EngineInv (add_event s t a) L := by
  obtain ⟨hchip, hwf, hsync⟩ := hinv
  cases hh : s.current_hand with
  | none =>
    have hs : add_event s t a = s := by
      unfold add_event
      rw [hh]
    rw [hs]
    exact ⟨hchip, hwf, hsync⟩
  | some h =>
    refine ⟨?_, ?_, ?_⟩
    · rw [chip_total_eq] at hchip ⊢
      rw [add_event_table, add_event_rake]
      have hpot : hand_pot_of (add_event s t a) = hand_pot_of s := by
        unfold hand_pot_of
        rw [add_event_hand s t a h hh, hh]
      rw [hpot]
      exact hchip
    · rw [add_event_table]
      exact hwf
    · intro h2 hh2
      rw [add_event_hand s t a h hh] at hh2
      simp only [Option.some.injEq] at hh2
      obtain ⟨b, hb, hbs⟩ := hsync h hh
      refine ⟨b, ?_, ?_⟩
      · rw [← hh2]
        exact hb
      · rw [add_event_table]
        exact hbs

/-- replacing the live hand with one holding the same betting state
preserves the invariant. -/
theorem inv_replace_hand (s : EngineState) (L : Int) (hand h2 : HandState)
    (hh : s.current_hand = some hand) (hinv : EngineInv s L)
    (hb2 : h2.betting = hand.betting) :
    EngineInv { s with current_hand := some h2 } L := by
  obtain ⟨hchip, hwf, hsync⟩ := hinv
  obtain ⟨b, hb, hbs⟩ := hsync hand hh
  refine ⟨?_, hwf, ?_⟩
  · rw [chip_total_eq] at hchip ⊢
    rw [hand_pot_some s hand b hh hb] at hchip
    rw [hand_pot_some _ h2 b rfl (by rw [hb2]; exact hb)]
    exact hchip
  · intro h3 hh3
    have hh3b : some h2 = some h3 := hh3
    cases hh3b
    exact ⟨b, by rw [hb2]; exact hb, hbs⟩

/-- chip facts of _complete_hand: same seat stacks, same rake total, no
hand, and well-formedness survives. -/
theorem complete_hand_chips (s : EngineState) :
    (complete_hand s).table.seats.map seat_chips =
      s.table.seats.map seat_chips := by
  show (s.table.seats.map fun se => { se with hole_cards := [] }).map
    seat_chips = _
  rw [List.map_map]
  have hc : (seat_chips ∘ fun se => { se with hole_cards := [] }) =
      seat_chips := funext fun se => rfl
  rw [hc]

/-- the invariant after completing the hand, given the books balance
without a pot. -/
theorem complete_hand_inv (s : EngineState) (L : Int)
    (hchip : seats_sum s.table + s.total_rake_collected = L)
    (hwf : table_wf s.table) : EngineInv (complete_hand s) L := by
  refine ⟨?_, ?_, ?_⟩
  · rw [chip_total_eq, hand_pot_none _ (complete_hand_no_hand s)]
    rw [seats_sum_chips _ _ (complete_hand_chips s)]
    have hrake : (complete_hand s).total_rake_collected =
        s.total_rake_collected := rfl
    rw [hrake]
    omega
  · exact table_wf_chips _ _ (complete_hand_chips s) hwf
  · intro h hh
    rw [complete_hand_no_hand] at hh
    cases hh

/-- _handle_everyone_folded preserves the conservation invariant. -/
theorem handle_everyone_folded_inv (s : EngineState) (L : Int)
    (hinv : EngineInv s L) : EngineInv (handle_everyone_folded s).1 L := by
  obtain ⟨hchip, hwf, hsync⟩ := hinv
  unfold handle_everyone_folded
  split
  · exact ⟨hchip, hwf, hsync⟩
  next hand hh =>
    split
    · exact ⟨hchip, hwf, hsync⟩
    next betting hb =>
      split
      next w1 w2 hfilt =>
        dsimp only
        have hmem : (w1, w2) ∈ betting.players := by
          apply List.mem_of_mem_filter (p := fun e => !e.2.is_folded)
          rw [hfilt]
          exact List.mem_cons_self _ _
        obtain ⟨b0, hb0, hbs⟩ := hsync hand hh
        rw [hb] at hb0
        cases hb0
        obtain ⟨se, hse, hstk, hocc⟩ := hbs.2 (w1, w2) hmem
        split
        next hset =>
          exfalso
          have hset2 : set_seat s.table w1 (fun se2 =>
              { se2 with stack := se2.stack +
                (betting.pot - calculate_rake s.rake_config betting.pot) }) =
              none := hset
          rw [set_seat_put _ _ _ se hse] at hset2
          cases hset2
        next t2 hset =>
          have hset2 : set_seat s.table w1 (fun se2 =>
              { se2 with stack := se2.stack +
                (betting.pot - calculate_rake s.rake_config betting.pot) }) =
              some t2 := hset
          rw [set_seat_put _ _ _ se hse] at hset2
          simp only [Option.some.injEq] at hset2
          subst hset2
          apply complete_hand_inv
          · rw [add_event_table, add_event_rake]
            have hsum := put_seat_sum s.table w1 se
              { se with stack := se.stack +
                (betting.pot - calculate_rake s.rake_config betting.pot) } hse
            have hx : ({ se with stack := se.stack +
                (betting.pot - calculate_rake s.rake_config betting.pot) } :
                SeatState).stack = se.stack +
                (betting.pot - calculate_rake s.rake_config betting.pot) := rfl
            rw [chip_total_eq, hand_pot_some s hand betting hh hb] at hchip
            rw [hx] at hsum
            have htab : ({ s with
                current_hand := some { hand with
                  rake_collected := calculate_rake s.rake_config betting.pot },
                total_rake_collected := s.total_rake_collected +
                  calculate_rake s.rake_config betting.pot } :
                EngineState).table = s.table := rfl
            rw [htab, hsum]
            have hrk : ({ s with
                current_hand := some { hand with
                  rake_collected := calculate_rake s.rake_config betting.pot },
                total_rake_collected := s.total_rake_collected +
                  calculate_rake s.rake_config betting.pot } :
                EngineState).total_rake_collected =
                s.total_rake_collected +
                  calculate_rake s.rake_config betting.pot := rfl
            rw [hrk]
            omega
          · rw [add_event_table]
            exact put_seat_wf s.table w1 se _ hse rfl rfl rfl hocc hwf
      next hother =>
        exact ⟨hchip, hwf, hsync⟩

/-- every evaluated seat comes from the active list. -/
theorem showdown_evaluations_keys (h : HandState) :
    ∀ (active : List (Nat × PlayerBettingState)) (evals : List (Nat × Nat)),
      showdown_evaluations h active = Except.ok evals →
      ∀ e ∈ evals, ∃ p, (e.1, p) ∈ active := by
  intro active
  induction active with
  | nil =>
    intro evals heq e he
    unfold showdown_evaluations at heq
    cases heq
    cases he
  | cons a rest ih =>
    intro evals heq e he
    obtain ⟨seat, p0⟩ := a
    unfold showdown_evaluations at heq
    dsimp only at heq
    split at heq
    next hcond =>
      split at heq
      next => cases heq
      next sc hev =>
        split at heq
        next => cases heq
        next l hrec =>
          cases heq
          rcases List.mem_cons.mp he with rfl | he2
          · exact ⟨p0, List.mem_cons_self _ _⟩
          · obtain ⟨p, hp⟩ := ih l hrec e he2
            exact ⟨p, List.mem_cons_of_mem _ hp⟩
    next hcond =>
      obtain ⟨p, hp⟩ := ih evals heq e he
      exact ⟨p, List.mem_cons_of_mem _ hp⟩

/-- _handle_showdown preserves the conservation invariant. -/
theorem handle_showdown_inv (s : EngineState) (L : Int)
    (hinv : EngineInv s L) : EngineInv (handle_showdown s).1 L := by
  obtain ⟨hchip, hwf, hsync⟩ := hinv
  unfold handle_showdown
  split
  · exact ⟨hchip, hwf, hsync⟩
  next hand hh =>
    split
    · exact ⟨hchip, hwf, hsync⟩
    next betting hb =>
      dsimp only
      split
      next hone =>
        exact handle_everyone_folded_inv _ L
          (inv_replace_hand s L hand _ hh ⟨hchip, hwf, hsync⟩ rfl)
      next hmany =>
        split
        next e heval =>
          exact inv_replace_hand s L hand _ hh ⟨hchip, hwf, hsync⟩ rfl
        next evals heval =>
          split
          next hnil =>
            exact inv_replace_hand s L hand _ hh ⟨hchip, hwf, hsync⟩ rfl
          next s0 b0 rest hsort =>
            obtain ⟨bsync, hbsync, hbs⟩ := hsync hand hh
            rw [hb] at hbsync
            cases hbsync
            have hmemb : ∀ w ∈ (((s0, b0) :: rest).filter
                fun e => e.2 = b0), ∃ se,
                s.table.seats.get? w.1 = some se ∧ se.is_occupied = true := by
              intro w hwK
              have hw1 : w ∈ (s0, b0) :: rest := List.mem_of_mem_filter hwK
              have hw2 : w ∈ stable_sort (fun a b => a.2 < b.2) evals := by
                rw [hsort]
                exact hw1
              have hw3 : w ∈ evals := (stable_sort_perm _ _).subset hw2
              obtain ⟨p, hp⟩ := showdown_evaluations_keys _ _ _ heval w hw3
              have hp2 : (w.1, p) ∈ betting.players :=
                List.mem_of_mem_filter hp
              obtain ⟨se, hse, _, hocc⟩ := hbs.2 (w.1, p) hp2
              exact ⟨se, hse, hocc⟩
            have hWpos : 0 < (((s0, b0) :: rest).filter
                fun e => e.2 = b0).length := by
              rw [List.filter_cons]
              simp
            obtain ⟨t2, heqd, hsum, hwf2⟩ := distribute_pot_spec
              (((s0, b0) :: rest).filter fun e => e.2 = b0) s.table 0
              ((betting.pot - calculate_rake s.rake_config betting.pot) /
                ((((s0, b0) :: rest).filter fun e => e.2 = b0).length : Int))
              ((betting.pot - calculate_rake s.rake_config betting.pot) %
                ((((s0, b0) :: rest).filter fun e => e.2 = b0).length : Int))
              hmemb hwf
            have hWposZ : (0 : Int) <
                ((((s0, b0) :: rest).filter fun e => e.2 = b0).length : Int) :=
              by exact_mod_cast hWpos
            have hrem0 : 0 ≤ (betting.pot -
                calculate_rake s.rake_config betting.pot) %
                ((((s0, b0) :: rest).filter fun e => e.2 = b0).length : Int) :=
              Int.emod_nonneg _ (by omega)
            have hremW : (betting.pot -
                calculate_rake s.rake_config betting.pot) %
                ((((s0, b0) :: rest).filter fun e => e.2 = b0).length : Int) <
                ((((s0, b0) :: rest).filter fun e => e.2 = b0).length : Int) :=
              Int.emod_lt_of_pos _ hWposZ
            have hde := Int.ediv_add_emod (betting.pot -
                calculate_rake s.rake_config betting.pot)
              ((((s0, b0) :: rest).filter fun e => e.2 = b0).length : Int)
            have hkey : odd_sum
                ((betting.pot - calculate_rake s.rake_config betting.pot) /
                  ((((s0, b0) :: rest).filter fun e => e.2 = b0).length : Int))
                ((betting.pot - calculate_rake s.rake_config betting.pot) %
                  ((((s0, b0) :: rest).filter fun e => e.2 = b0).length : Int))
                0 (((s0, b0) :: rest).filter fun e => e.2 = b0).length =
                betting.pot - calculate_rake s.rake_config betting.pot := by
              rw [odd_sum_eval _ _ hrem0]
              set P := ((((s0, b0) :: rest).filter
                  fun e => e.2 = b0).length : Int) *
                ((betting.pot - calculate_rake s.rake_config betting.pot) /
                  ((((s0, b0) :: rest).filter fun e => e.2 = b0).length :
                    Int)) with hP
              omega
            split
            next t e hdist =>
              rw [heqd] at hdist
              simp at hdist
            next t u hdist =>
              rw [heqd] at hdist
              simp only [Prod.mk.injEq] at hdist
              obtain ⟨ht2, _⟩ := hdist
              subst ht2
              apply complete_hand_inv
              · rw [add_event_table, add_event_rake]
                show seats_sum t2 + (s.total_rake_collected +
                  calculate_rake s.rake_config betting.pot) = L
                rw [chip_total_eq, hand_pot_some s hand betting hh hb] at hchip
                rw [hsum, hkey]
                omega
              · rw [add_event_table]
                exact hwf2

/-- one runout iteration keeps the betting state. -/
theorem runout_step_betting (h : HandState) :
    (runout_step h).1.betting = h.betting := by
  unfold runout_step
  split
  · split
    · rfl
    · split <;> rfl
  · split
    · rfl
    · split <;> rfl
  · split
    · rfl
    · split <;> rfl
  · rfl

/-- the runout loop keeps the betting state. -/
theorem runout_loop_betting (fuel : Nat) (h : HandState) :
    (runout_loop h fuel).1.betting = h.betting := by
  induction fuel generalizing h with
  | zero =>
    unfold runout_loop
    split <;> rfl
  | succ n ih =>
    unfold runout_loop
    split
    next hlt =>
      split
      next h2 e heq =>
        have hs := runout_step_betting h
        rw [heq] at hs
        exact hs
      next h2 a heq =>
        have hs := runout_step_betting h
        rw [heq] at hs
        split
        next => exact hs
        next => rw [ih h2]; exact hs
    next => rfl

/-- _deal_remaining_and_showdown preserves the conservation
invariant. -/
theorem deal_remaining_inv (s : EngineState) (L : Int)
    (hinv : EngineInv s L) :
    EngineInv (deal_remaining_and_showdown s).1 L := by
  obtain ⟨hchip, hwf, hsync⟩ := hinv
  unfold deal_remaining_and_showdown
  split
  · exact ⟨hchip, hwf, hsync⟩
  next hand hh =>
    split
    next h2 e heq =>
      have hb2 : h2.betting = hand.betting := by
        have hs := runout_loop_betting 3 hand
        rw [heq] at hs
        exact hs
      exact inv_replace_hand s L hand h2 hh ⟨hchip, hwf, hsync⟩ hb2
    next h2 a heq =>
      have hb2 : h2.betting = hand.betting := by
        have hs := runout_loop_betting 3 hand
        rw [heq] at hs
        exact hs
      apply handle_showdown_inv
      apply add_event_inv
      exact inv_replace_hand s L hand h2 hh ⟨hchip, hwf, hsync⟩ hb2

/-- start_new_round keeps the dict in sync: keys and stacks are
untouched. -/
theorem start_new_round_sync (t : TableState) (b : BettingState)
    (r : BettingRound) (f : Nat) (hs : betting_synced t b) :
    betting_synced t (b.start_new_round r f) := by
  obtain ⟨hnd, hmem⟩ := hs
  constructor
  · show ((b.players.map fun e => (e.1, e.2.reset_for_round)).map
      Prod.fst).Nodup
    rw [alist_map_keys
      (fun e : Nat × PlayerBettingState => (e.1, e.2.reset_for_round))
      (fun e => rfl)]
    exact hnd
  · intro kp hkp
    obtain ⟨e, he, hkpe⟩ := List.mem_map.mp hkp
    cases hkpe
    obtain ⟨se, hse, hst, hocc⟩ := hmem e he
    exact ⟨se, hse, hst, hocc⟩

/-- replacing the live hand's betting state with one holding the same
pot and staying in sync preserves the invariant. -/
theorem inv_set_betting (s : EngineState) (L : Int) (hand : HandState)
    (b2 : BettingState) (hh : s.current_hand = some hand)
    (hinv : EngineInv s L)
    (hpot : ∀ b, hand.betting = some b → b2.pot = b.pot)
    (hsync2 : ∀ b, hand.betting = some b → betting_synced s.table b →
      betting_synced s.table b2) :
    EngineInv { s with
      current_hand := some { hand with betting := some b2 } } L := by
  obtain ⟨hchip, hwf, hsync⟩ := hinv
  obtain ⟨b, hb, hbs⟩ := hsync hand hh
  refine ⟨?_, hwf, ?_⟩
  · rw [chip_total_eq] at hchip ⊢
    rw [hand_pot_some s hand b hh hb] at hchip
    rw [hand_pot_some _ { hand with betting := some b2 } b2 rfl rfl]
    rw [hpot b hb]
    exact hchip
  · intro h3 hh3
    have hh3b : some { hand with betting := some b2 } = some h3 := hh3
    cases hh3b
    exact ⟨b2, rfl, hsync2 b hb hbs⟩

/-- _advance_to_next_phase preserves the conservation invariant. -/
theorem advance_to_next_phase_inv (s : EngineState) (L : Int)
    (hinv : EngineInv s L) :
    EngineInv (advance_to_next_phase s).1 L := by
  obtain ⟨hchip, hwf, hsync⟩ := hinv
  unfold advance_to_next_phase
  split
  · exact ⟨hchip, hwf, hsync⟩
  next hand hh =>
    split
    · exact ⟨hchip, hwf, hsync⟩
    next betting hb =>
      dsimp only
      split
      next hle =>
        split
        next hriver => exact handle_showdown_inv s L ⟨hchip, hwf, hsync⟩
        next hnr =>
          split
          next s2 e heq =>
            have h2 := deal_remaining_inv s L ⟨hchip, hwf, hsync⟩
            rw [heq] at h2
            exact h2
          next s2 a heq =>
            have h2 := deal_remaining_inv s L ⟨hchip, hwf, hsync⟩
            rw [heq] at h2
            exact h2
      next hgt =>
        split
        next htr => exact ⟨hchip, hwf, hsync⟩
        next np cd htr =>
          split
          next hsd => exact handle_showdown_inv s L ⟨hchip, hwf, hsync⟩
          next hnsd =>
            split
            next e hdeal => exact ⟨hchip, hwf, hsync⟩
            next cs deck hdeal =>
              split
              next e hdeal2 =>
                exact inv_replace_hand s L hand _ hh ⟨hchip, hwf, hsync⟩ rfl
              next ncs deck2 hdeal2 =>
                split
                next e hact =>
                  apply add_event_inv
                  exact inv_replace_hand s L hand _ hh ⟨hchip, hwf, hsync⟩ rfl
                next aseats hact =>
                  split
                  next e hfta =>
                    apply add_event_inv
                    exact inv_replace_hand s L hand _ hh ⟨hchip, hwf, hsync⟩
                      rfl
                  next fta hfta =>
                    split
                    next hnone =>
                      apply add_event_inv
                      exact inv_replace_hand s L hand _ hh ⟨hchip, hwf, hsync⟩
                        rfl
                    next hand3 hh3 =>
                      have hinv3 : EngineInv (add_event { s with
                          current_hand := some { hand with
                            deck := deck2,
                            community_cards := hand.community_cards ++ ncs,
                            phase := np } } "community_cards" none) L := by
                        apply add_event_inv
                        exact inv_replace_hand s L hand _ hh
                          ⟨hchip, hwf, hsync⟩ rfl
                      have hh3b : hand3.betting = some betting := by
                        rw [add_event_hand _ "community_cards" none
                          { hand with
                            deck := deck2,
                            community_cards := hand.community_cards ++ ncs,
                            phase := np } rfl] at hh3
                        have hh3c := Option.some.inj hh3
                        rw [← hh3c]
                        exact hb
                      have hfin := inv_set_betting
                        (add_event { s with
                          current_hand := some { hand with
                            deck := deck2,
                            community_cards := hand.community_cards ++ ncs,
                            phase := np } } "community_cards" none) L hand3
                        (betting.start_new_round (betting_round_of_phase np)
                          fta) hh3 hinv3
                        (fun b hb0 => by
                          rw [hh3b] at hb0
                          cases hb0
                          rfl)
                        (fun b hb0 hs0 => by
                          rw [hh3b] at hb0
                          cases hb0
                          exact start_new_round_sync _ _ _ _ hs0)
                      exact hfin

/-- PokerEngine.process_action preserves the conservation invariant:
rejections leave the state alone, and an accepted action moves exactly
the actor's chips between stack and pot before the handlers run. -/
theorem process_action_inv (s : EngineState) (agent : Nat)
    (ty : ActionType) (amount : Int) (L : Int) (hinv : EngineInv s L) :
    EngineInv (process_action s agent ty amount).1 L := by
  obtain ⟨hchip, hwf, hsync⟩ := hinv
  unfold process_action
  split
  · exact ⟨hchip, hwf, hsync⟩
  next hand hh =>
    split
    · exact ⟨hchip, hwf, hsync⟩
    next betting hb =>
      split
      · exact ⟨hchip, hwf, hsync⟩
      next seat hseat =>
        split
        next hturn => exact ⟨hchip, hwf, hsync⟩
        next hturn =>
          split
          next hval => exact ⟨hchip, hwf, hsync⟩
          next hval =>
            dsimp only
            split
            next e herr => exact ⟨hchip, hwf, hsync⟩
            next b2 rc hok =>
              obtain ⟨hkeys, p, p2, hp, hp2, hpoteq, hframe⟩ :=
                betting_process_action_spec betting
                  { player_seat := seat.seat_number, agent_id := agent,
                    action_type := ty, amount := amount } b2 rc hok
              obtain ⟨b0, hb0, hbs⟩ := hsync hand hh
              rw [hb] at hb0
              cases hb0
              have hp' : alist_get betting.players seat.seat_number =
                  some p := hp
              have hpm : (seat.seat_number, p) ∈ betting.players :=
                alist_get_mem _ _ _ hp'
              obtain ⟨se, hse, hstk, hocc⟩ := hbs.2 (seat.seat_number, p) hpm
              have hstk2 : se.stack = p.stack := hstk
              split
              next hget =>
                exfalso
                have hp2' : alist_get b2.players seat.seat_number =
                    some p2 := hp2
                rw [hget] at hp2'
                cases hp2'
              next pb hget =>
                have hp2' : alist_get b2.players seat.seat_number =
                    some p2 := hp2
                rw [hget] at hp2'
                have hpb : pb = p2 := Option.some.inj hp2'
                subst hpb
                split
                next hset =>
                  exfalso
                  have hset2 : set_seat s.table seat.seat_number
                      (fun se2 : SeatState => { se2 with stack := pb.stack }) =
                      none := hset
                  rw [set_seat_put _ _ _ se hse] at hset2
                  cases hset2
                next t2 hset =>
                  have hset2 : set_seat s.table seat.seat_number
                      (fun se2 : SeatState => { se2 with stack := pb.stack }) =
                      some t2 := hset
                  rw [set_seat_put _ _ _ se hse] at hset2
                  have ht2 := Option.some.inj hset2
                  subst ht2
                  have hnd2 : (b2.players.map Prod.fst).Nodup := by
                    rw [hkeys]
                    exact hbs.1
                  have hinv3 : EngineInv { s with
                      current_hand := some { hand with betting := some b2 },
                      table := put_seat s.table seat.seat_number
                        ((fun se2 : SeatState => { se2 with stack := pb.stack }) se) }
                      L := by
                    refine ⟨?_, ?_, ?_⟩
                    · rw [chip_total_eq,
                        hand_pot_some _ { hand with betting := some b2 } b2
                          rfl rfl]
                      show seats_sum (put_seat s.table seat.seat_number
                          ((fun se2 : SeatState => { se2 with stack := pb.stack }) se)) +
                        b2.pot + s.total_rake_collected = L
                      rw [put_seat_sum _ _ se _ hse]
                      have hxs : ((fun se2 : SeatState =>
                          { se2 with stack := pb.stack }) se).stack =
                          pb.stack := rfl
                      rw [hxs]
                      rw [chip_total_eq,
                        hand_pot_some s hand betting hh hb] at hchip
                      omega
                    · exact put_seat_wf s.table seat.seat_number se _ hse
                        rfl rfl rfl hocc hwf
                    · intro h3 hh3
                      have hh3b : some { hand with betting := some b2 } =
                          some h3 := hh3
                      cases hh3b
                      refine ⟨b2, rfl, hnd2, ?_⟩
                      intro kp hkp
                      by_cases hk : kp.1 = seat.seat_number
                      · have hkg : alist_get b2.players kp.1 = some kp.2 :=
                          mem_alist_get _ _ hnd2 hkp
                        rw [hk] at hkg
                        rw [hget] at hkg
                        have hkp2 := Option.some.inj hkg
                        refine ⟨(fun se2 : SeatState => { se2 with stack := pb.stack }) se,
                          ?_, ?_, ?_⟩
                        · rw [hk]
                          exact put_seat_get_self _ _ se _ hse
                        · rw [← hkp2]
                        · exact hocc
                      · have hkg : alist_get b2.players kp.1 = some kp.2 :=
                          mem_alist_get _ _ hnd2 hkp
                        have hfr := hframe kp.1 hk
                        rw [hkg] at hfr
                        cases hq : alist_get betting.players kp.1 with
                        | none =>
                          rw [hq] at hfr
                          cases hfr
                        | some q =>
                          rw [hq] at hfr
                          simp only [Option.map_some',
                            Option.some.injEq] at hfr
                          have hqm : (kp.1, q) ∈ betting.players :=
                            alist_get_mem _ _ _ hq
                          obtain ⟨se2, hse2, hst2, hocc2⟩ :=
                            hbs.2 (kp.1, q) hqm
                          refine ⟨se2, ?_, ?_, hocc2⟩
                          · rw [put_seat_get_ne _ _ _ _ hk]
                            exact hse2
                          · rw [hst2, ← hfr]
                  have hinv4 := add_event_inv _ "player_action" (some agent)
                    L hinv3
                  split
                  next hone =>
                    exact handle_everyone_folded_inv _ L hinv4
                  next hmore =>
                    split
                    next hrc =>
                      exact advance_to_next_phase_inv _ L hinv4
                    next hnrc =>
                      split
                      next nxt hnext =>
                        split
                        next hnone => exact hinv4
                        next hand4 hh4 =>
                          have hh4b : hand4.betting = some b2 := by
                            rw [add_event_hand _ "player_action" (some agent)
                              { hand with betting := some b2 } rfl] at hh4
                            have hh4c := Option.some.inj hh4
                            rw [← hh4c]
                          exact inv_set_betting _ L hand4
                            { b2 with action_on := (nxt : Int) } hh4 hinv4
                            (fun b' hb' => by
                              rw [hh4b] at hb'
                              cases hb'
                              rfl)
                            (fun b' hb' hs0 => by
                              rw [hh4b] at hb'
                              cases hb'
                              exact hs0)
                      next hnext => exact hinv4

/-! ### Table transformations used by start_hand -/

/-- advance_button moves only the button. -/
theorem advance_button_seats (t : TableState) :
    t.advance_button.seats = t.seats := by
  unfold TableState.advance_button
  dsimp only
  split <;> rfl

/-- advance_button keeps the config. -/
theorem advance_button_config (t : TableState) :
    t.advance_button.config = t.config := by
  unfold TableState.advance_button
  dsimp only
  split <;> rfl

/-- get_blinds_positions moves at most the button. -/
theorem blinds_table (t : TableState) (pos : Nat × Nat) (t' : TableState)
    (h : t.get_blinds_positions = Except.ok (pos, t')) :
    t'.seats = t.seats ∧ t'.config = t.config := by
  unfold TableState.get_blinds_positions at h
  dsimp only at h
  split at h
  next => cases h
  next hlen =>
    split at h <;> split at h <;>
      (simp only [Except.ok.injEq, Prod.mk.injEq] at h
       obtain ⟨_, ht⟩ := h
       rw [← ht]
       exact ⟨rfl, rfl⟩)

/-- get_first_to_act_preflop moves at most the button. -/
theorem first_preflop_table (t : TableState) (f : Nat) (t' : TableState)
    (h : t.get_first_to_act_preflop = Except.ok (f, t')) :
    t'.seats = t.seats ∧ t'.config = t.config := by
  unfold TableState.get_first_to_act_preflop at h
  dsimp only at h
  split at h
  next => cases h
  next hlen =>
    split at h
    next e heq => cases h
    next a bb t2 heq =>
      simp only [Except.ok.injEq, Prod.mk.injEq] at h
      obtain ⟨_, ht⟩ := h
      rw [← ht]
      exact blinds_table t (a, bb) t2 heq

/-- the hole-card dealing loop changes nothing but hole cards,
wherever it stops. -/
theorem deal_hole_cards_chips :
    ∀ (ks : List Nat) (t : TableState) (h : HandState),
      (deal_hole_cards ks t h).1.seats.map seat_chips =
        t.seats.map seat_chips ∧
      (deal_hole_cards ks t h).1.config = t.config ∧
      (deal_hole_cards ks t h).1.button_position = t.button_position := by
  intro ks
  induction ks with
  | nil => intro t h; exact ⟨rfl, rfl, rfl⟩
  | cons k rest ih =>
    intro t h
    unfold deal_hole_cards
    split
    next e heq => exact ⟨rfl, rfl, rfl⟩
    next cards deck heq =>
      split
      next hset => exact ⟨rfl, rfl, rfl⟩
      next t3 hset =>
        obtain ⟨se, hse, ht3⟩ := set_seat_eq _ _ _ _ hset
        subst ht3
        refine ⟨?_, ?_, ?_⟩
        · rw [(ih _ _).1]
          show (t.seats.set k _).map seat_chips = _
          exact map_chips_set t.seats k se _ rfl hse
        · rw [(ih _ _).2.1]
        · rw [(ih _ _).2.2]

/-- well-formedness only reads the seats. -/
theorem table_wf_seats_eq (t t' : TableState) (h : t'.seats = t.seats)
    (hwf : table_wf t) : table_wf t' := by
  unfold table_wf at hwf ⊢
  rw [h]
  exact hwf

/-- sync only reads the seats. -/
theorem betting_synced_seats_eq (t t' : TableState) (b : BettingState)
    (h : t'.seats = t.seats) (hs : betting_synced t b) :
    betting_synced t' b := by
  unfold betting_synced at hs ⊢
  rw [h]
  exact hs

/-- the keys of the betting dict built by start_hand are the ready seat
numbers. -/
theorem build_players_keys (ready : List SeatState) :
    ((ready.map fun se => (se.seat_number,
      ({ seat := se.seat_number, agent_id := se.agent_id.getD 0,
         stack := se.stack } : PlayerBettingState))).map Prod.fst) =
      ready.map SeatState.seat_number := by
  rw [List.map_map]
  have hc : (Prod.fst ∘ fun se : SeatState => (se.seat_number,
      ({ seat := se.seat_number, agent_id := se.agent_id.getD 0,
         stack := se.stack } : PlayerBettingState))) =
      SeatState.seat_number := funext fun se => rfl
  rw [hc]

/-- ready seats are occupied. -/
theorem is_ready_occupied (se : SeatState) (h : se.is_ready = true) :
    se.is_occupied = true := by
  unfold SeatState.is_ready at h
  simp only [Bool.and_eq_true] at h
  exact h.1.1

/-- equation form of the dealing-loop frame facts. -/
theorem deal_hole_cards_chips_eq (ks : List Nat) (t : TableState)
    (h : HandState) (t' : TableState) (h' : HandState)
    (r : Except String Unit) (heq : deal_hole_cards ks t h = (t', h', r)) :
    t'.seats.map seat_chips = t.seats.map seat_chips ∧
      t'.config = t.config := by
  have hch := deal_hole_cards_chips ks t h
  rw [heq] at hch
  exact ⟨hch.1, hch.2.1⟩

/-- stack totals only read the seats. -/
theorem seats_sum_seats_eq (t t' : TableState) (h : t'.seats = t.seats) :
    seats_sum t' = seats_sum t := by
  unfold seats_sum
  rw [h]

/-- a successful start_hand preserves the conservation invariant: the
blinds move from the two seats into the new betting pot. -/
theorem start_hand_inv (mk_deck : Option Int → List Card)
    (s s' : EngineState) (L : Int) (hinv : EngineInv s L)
    (heq : start_hand mk_deck s = (s', Except.ok ())) : EngineInv s' L := by
  obtain ⟨hchip, hwf, hsync⟩ := hinv
  unfold start_hand at heq
  split at heq
  next hsome => simp at heq
  next hnone =>
    have hnone2 : s.current_hand = none := by
      cases hcs : s.current_hand with
      | none => rfl
      | some h0 => rw [hcs] at hnone; simp at hnone
    dsimp only at heq
    split at heq
    next => simp at heq
    next hlen =>
      split at heq
      next t3 x e hdeal => simp at heq
      next t3 hand1 a hdeal =>
        split at heq
        next e hblinds => simp at heq
        next sb bb t4 hblinds =>
          split at heq
          next hsb => simp at heq
          next sbs hsb hbb => simp at heq
          next sbs bbs hsb hbb =>
            split at heq
            next hsbp => simp at heq
            next sbp hsbp =>
              split at heq
              next hset1 => simp at heq
              next t5 hset1 =>
                split at heq
                next hbbp => simp at heq
                next bbp hbbp =>
                  split at heq
                  next hset2 => simp at heq
                  next t6 hset2 =>
                    split at heq
                    next e hfta => simp at heq
                    next first t7 hfta =>
                      simp only [Prod.mk.injEq] at heq
                      obtain ⟨hs', _⟩ := heq
                      subst hs'
                      obtain ⟨hch3, hcfg3⟩ :=
                        deal_hole_cards_chips_eq _ _ _ _ _ _ hdeal
                      obtain ⟨hseats4, hcfg4⟩ := blinds_table _ _ _ hblinds
                      obtain ⟨hseats7, hcfg7⟩ := first_preflop_table _ _ _ hfta
                      have hT2seats : ({ s.table.advance_button with
                          hand_number :=
                            s.table.advance_button.hand_number + 1 } :
                          TableState).seats = s.table.seats :=
                        advance_button_seats s.table
                      rw [hT2seats] at hch3
                      have hCH : ∀ k, (t4.seats.get? k).map seat_chips =
                          (s.table.seats.get? k).map seat_chips := by
                        intro k
                        rw [hseats4]
                        exact get?_chips_eq _ _ hch3 k
                      have hbase : ∀ k q, alist_get (List.map (fun se =>
                          (se.seat_number,
                            ({ seat := se.seat_number,
                               agent_id := se.agent_id.getD 0,
                               stack := se.stack } : PlayerBettingState)))
                          s.table.get_ready_players) k = some q →
                          ∃ seT, t4.seats.get? k = some seT ∧
                            seT.stack = q.stack ∧ seT.is_occupied = true := by
                        intro k q hkq
                        have hmemq := alist_get_mem _ _ _ hkq
                        obtain ⟨se0, hse0, hpair⟩ := List.mem_map.mp hmemq
                        have hk0 : se0.seat_number = k := by
                          have h2 := congrArg Prod.fst hpair
                          exact h2
                        have hq0 : se0.stack = q.stack := by
                          have h2 := congrArg
                            (fun e : Nat × PlayerBettingState => e.2.stack)
                            hpair
                          exact h2
                        have hse0m : se0 ∈ s.table.seats :=
                          List.mem_of_mem_filter hse0
                        have hready : se0.is_ready = true :=
                          List.of_mem_filter hse0
                        have hocc0 := is_ready_occupied se0 hready
                        have hget0 : s.table.seats.get? k = some se0 := by
                          rw [← hk0]
                          exact get?_of_mem_wf s.table hwf.1 se0 hse0m
                        have hchk := hCH k
                        rw [hget0] at hchk
                        cases hse4 : t4.seats.get? k with
                        | none => rw [hse4] at hchk; simp at hchk
                        | some seT =>
                          rw [hse4] at hchk
                          simp only [Option.map_some',
                            Option.some.injEq] at hchk
                          refine ⟨seT, rfl, ?_, ?_⟩
                          · rw [← hq0]
                            have h3 := congrArg SeatState.stack hchk
                            exact h3
                          · have h3 : seT.is_occupied = se0.is_occupied := by
                              have h4 := congrArg SeatState.is_occupied hchk
                              exact h4
                            rw [h3]
                            exact hocc0
                      obtain ⟨se5, hse5, ht5⟩ := set_seat_eq _ _ _ _ hset1
                      rw [hsb] at hse5
                      have hse5b := Option.some.inj hse5
                      subst hse5b
                      obtain ⟨se6, hse6, ht6⟩ := set_seat_eq _ _ _ _ hset2
                      obtain ⟨seS, hseS, hstkS, hoccS⟩ := hbase sb sbp hsbp
                      rw [hsb] at hseS
                      have hseSb := Option.some.inj hseS
                      subst hseSb
                      have hbb6 : se6.stack = bbp.stack ∧
                          se6.is_occupied = true := by
                        by_cases hbs2 : bb = sb
                        · rw [hbs2] at hse6 hbbp
                          rw [ht5] at hse6
                          dsimp only at hse6
                          rw [get?_set_self _ _ _ _ hsb] at hse6
                          rw [alist_get_set_self _ _ _ sbp hsbp] at hbbp
                          have h6 := Option.some.inj hse6
                          have h7 := Option.some.inj hbbp
                          constructor
                          · rw [← h6, ← h7]
                            dsimp only
                            omega
                          · rw [← h6]
                            exact hoccS
                        · rw [ht5] at hse6
                          dsimp only at hse6
                          rw [List.get?_set_ne _ _
                            (fun hh => hbs2 hh.symm)] at hse6
                          rw [hbb] at hse6
                          have h6 := Option.some.inj hse6
                          rw [alist_get_set_other _ _ _ _ hbs2] at hbbp
                          obtain ⟨seB, hseB, hstkB, hoccB⟩ :=
                            hbase bb bbp hbbp
                          rw [hbb] at hseB
                          have h8 := Option.some.inj hseB
                          constructor
                          · rw [← h6, h8]
                            exact hstkB
                          · rw [← h6, h8]
                            exact hoccB
                      obtain ⟨hbb61, hbb62⟩ := hbb6
                      have hsum4 : seats_sum t4 = seats_sum s.table := by
                        rw [seats_sum_seats_eq t3 t4 hseats4]
                        exact seats_sum_chips s.table t3 hch3
                      have hsum5 : seats_sum t5 = seats_sum t4 - sbs.stack +
                          (sbs.stack -
                            min s.table.advance_button.config.small_blind
                              sbs.stack) := by
                        rw [ht5]
                        exact put_seat_sum t4 sb sbs
                          ((fun se : SeatState => { se with
                            stack := se.stack -
                              min s.table.advance_button.config.small_blind
                                sbs.stack }) sbs) hsb
                      have hsum6 : seats_sum t6 = seats_sum t5 - se6.stack +
                          (se6.stack -
                            min s.table.advance_button.config.big_blind
                              bbs.stack) := by
                        rw [ht6]
                        exact put_seat_sum t5 bb se6
                          ((fun se : SeatState => { se with
                            stack := se.stack -
                              min s.table.advance_button.config.big_blind
                                bbs.stack }) se6) hse6
                      have hwf4 : table_wf t4 :=
                        table_wf_seats_eq t3 t4 hseats4
                          (table_wf_chips s.table t3 hch3 hwf)
                      have hwf5 : table_wf t5 := by
                        rw [ht5]
                        exact put_seat_wf t4 sb sbs _ hsb rfl rfl rfl hoccS
                          hwf4
                      have hwf6 : table_wf t6 := by
                        rw [ht6]
                        exact put_seat_wf t5 bb se6 _ hse6 rfl rfl rfl
                          hbb62 hwf5
                      have hwf7 : table_wf t7 :=
                        table_wf_seats_eq t6 t7 hseats7 hwf6
                      apply add_event_inv
                      refine ⟨?_, ?_, ?_⟩
                      · rw [chip_total_eq]
                        dsimp only [hand_pot_of]
                        rw [chip_total_eq, hand_pot_none s hnone2] at hchip
                        have hS7 : seats_sum ({ t7 with
                            status := "playing" } : TableState) =
                            seats_sum t7 := rfl
                        rw [hS7, seats_sum_seats_eq t6 t7 hseats7]
                        omega
                      · exact table_wf_seats_eq t7 _ rfl hwf7
                      · intro h3 hh3
                        have hh3b := Option.some.inj hh3
                        rw [← hh3b]
                        refine ⟨_, rfl, ?_⟩
                        have hndF : ((alist_set (alist_set
                            (List.map (fun se => (se.seat_number,
                              ({ seat := se.seat_number,
                                 agent_id := se.agent_id.getD 0,
                                 stack := se.stack } : PlayerBettingState)))
                              s.table.get_ready_players) sb
                            { sbp with
                              stack := sbp.stack -
                                min s.table.advance_button.config.small_blind
                                  sbs.stack,
                              bet_this_round :=
                                min s.table.advance_button.config.small_blind
                                  sbs.stack,
                              total_bet_this_hand :=
                                min s.table.advance_button.config.small_blind
                                  sbs.stack }) bb
                            { bbp with
                              stack := bbp.stack -
                                min s.table.advance_button.config.big_blind
                                  bbs.stack,
                              bet_this_round :=
                                min s.table.advance_button.config.big_blind
                                  bbs.stack,
                              total_bet_this_hand :=
                                min s.table.advance_button.config.big_blind
                                  bbs.stack }).map Prod.fst).Nodup := by
                          rw [alist_set_keys, alist_set_keys,
                            build_players_keys]
                          exact ready_numbers_nodup s.table hwf.1
                        constructor
                        · exact hndF
                        · intro kp hkp
                          have hkg := mem_alist_get _ kp hndF hkp
                          by_cases h1 : kp.1 = bb
                          · rw [h1] at hkg
                            rw [alist_get_set_self _ _ _ bbp hbbp] at hkg
                            have hkp2 := Option.some.inj hkg
                            refine ⟨(fun se : SeatState => { se with
                                stack := se.stack -
                                  min s.table.advance_button.config.big_blind
                                    bbs.stack }) se6, ?_, ?_, hbb62⟩
                            · rw [h1]
                              dsimp only
                              rw [hseats7, ht6]
                              dsimp only
                              exact get?_set_self _ _ _ _ hse6
                            · rw [← hkp2]
                              dsimp only
                              omega
                          · by_cases h2 : kp.1 = sb
                            · rw [h2] at hkg
                              have hne : sb ≠ bb := by
                                rw [← h2]
                                exact h1
                              rw [alist_get_set_other _ _ _ _ hne,
                                alist_get_set_self _ _ _ sbp hsbp] at hkg
                              have hkp2 := Option.some.inj hkg
                              refine ⟨(fun se : SeatState => { se with
                                  stack := se.stack -
                                    min
                                      s.table.advance_button.config.small_blind
                                      sbs.stack }) sbs, ?_, ?_, hoccS⟩
                              · rw [h2]
                                dsimp only
                                rw [hseats7, ht6]
                                dsimp only
                                rw [List.get?_set_ne _ _ (Ne.symm hne)]
                                rw [ht5]
                                dsimp only
                                exact get?_set_self _ _ _ _ hsb
                              · rw [← hkp2]
                                dsimp only
                                omega
                            · rw [alist_get_set_other _ _ _ _ h1,
                                alist_get_set_other _ _ _ _ h2] at hkg
                              obtain ⟨seT, hseT, hstkT, hoccT⟩ :=
                                hbase kp.1 kp.2 hkg
                              refine ⟨seT, ?_, hstkT, hoccT⟩
                              dsimp only
                              rw [hseats7, ht6]
                              dsimp only
                              rw [List.get?_set_ne _ _
                                (fun hh => h1 hh.symm)]
                              rw [ht5]
                              dsimp only
                              rw [List.get?_set_ne _ _
                                (fun hh => h2 hh.symm)]
                              exact hseT

/-! ### The remaining operations -/

/-- the table field does not feed the pot. -/
theorem hand_pot_set_table (s : EngineState) (t : TableState) :
    hand_pot_of { s with table := t } = hand_pot_of s := rfl

/-- a rejected seat_player leaves the engine untouched. -/
theorem seat_player_error (s : EngineState) (a n : Nat) (b : Int)
    (s2 : EngineState) (e : String)
    (heq : seat_player s a n b = (s2, Except.error e)) : s2 = s := by
  unfold seat_player at heq
  split at heq
  next =>
    simp only [Prod.mk.injEq] at heq
    exact heq.1.symm
  next =>
    split at heq
    next =>
      simp only [Prod.mk.injEq] at heq
      exact heq.1.symm
    next seat hget =>
      split at heq
      next =>
        simp only [Prod.mk.injEq] at heq
        exact heq.1.symm
      next =>
        split at heq
        next =>
          simp only [Prod.mk.injEq] at heq
          exact heq.1.symm
        next =>
          split at heq
          next =>
            simp only [Prod.mk.injEq] at heq
            exact heq.1.symm
          next => simp at heq

/-- a successful seat_player adds exactly the buy-in to the books. -/
theorem seat_player_ok (s : EngineState) (a n : Nat) (b : Int) (L : Int)
    (s2 : EngineState) (r : Bool)
    (heq : seat_player s a n b = (s2, Except.ok r))
    (hinv : EngineInv s L) : EngineInv s2 (L + b) := by
  obtain ⟨hchip, hwf, hsync⟩ := hinv
  unfold seat_player at heq
  split at heq
  next => simp at heq
  next hn =>
    split at heq
    next => simp at heq
    next seat hget =>
      split at heq
      next hocc => simp at heq
      next hocc =>
        split at heq
        next => simp at heq
        next hmin =>
          split at heq
          next => simp at heq
          next hmax =>
            simp only [Prod.mk.injEq] at heq
            obtain ⟨hs2, _⟩ := heq
            subst hs2
            have hstack0 : seat.stack = 0 := by
              rcases hwf.2 seat (List.get?_mem hget) with hl | hr
              · exfalso
                apply hocc
                unfold SeatState.is_occupied
                rw [hl.2]
                simp [hl.1]
              · exact hr.2.2
            refine ⟨?_, ?_, ?_⟩
            · rw [chip_total_eq, hand_pot_set_table]
              have hsum : seats_sum { s.table with
                  seats := s.table.seats.set n
                    { seat with
                      agent_id := some a
                      stack := b
                      status := "seated"
                      hole_cards := [] } } =
                  seats_sum s.table - seat.stack + b :=
                put_seat_sum s.table n seat _ hget
              dsimp only
              rw [hsum]
              rw [chip_total_eq] at hchip
              omega
            · constructor
              · intro j sj hj
                dsimp only at hj
                by_cases hja : j = n
                · subst hja
                  rw [get?_set_self _ _ _ _ hget] at hj
                  cases hj
                  exact hwf.1 j seat hget
                · rw [List.get?_set_ne _ _ (fun hh => hja hh.symm)] at hj
                  exact hwf.1 j sj hj
              · intro sj hj
                dsimp only at hj
                obtain ⟨j, hjg⟩ := List.mem_iff_get?.mp hj
                by_cases hja : j = n
                · subst hja
                  rw [get?_set_self _ _ _ _ hget] at hjg
                  cases hjg
                  exact Or.inl ⟨rfl, rfl⟩
                · rw [List.get?_set_ne _ _ (fun hh => hja hh.symm)] at hjg
                  exact hwf.2 sj (List.get?_mem hjg)
            · intro h hh0
              have hh0b : s.current_hand = some h := hh0
              obtain ⟨b0, hb0, hbs⟩ := hsync h hh0b
              refine ⟨b0, hb0, hbs.1, ?_⟩
              intro kp hkp
              obtain ⟨se2, hse2, hst2, hocc2⟩ := hbs.2 kp hkp
              have hkn : kp.1 ≠ n := by
                intro hk
                rw [hk, hget] at hse2
                have hse2b := Option.some.inj hse2
                rw [← hse2b] at hocc2
                exact hocc hocc2
              refine ⟨se2, ?_, hst2, hocc2⟩
              dsimp only
              rw [List.get?_set_ne _ _ (fun hh => hkn hh.symm)]
              exact hse2

/-- a rejected remove_player leaves the engine untouched. -/
theorem remove_player_error (s : EngineState) (a : Nat)
    (s2 : EngineState) (e : String)
    (heq : remove_player s a = (s2, Except.error e)) : s2 = s := by
  unfold remove_player at heq
  split at heq
  next =>
    simp only [Prod.mk.injEq] at heq
    exact heq.1.symm
  next i hidx =>
    split at heq
    next =>
      simp only [Prod.mk.injEq] at heq
      exact heq.1.symm
    next seat hget => simp at heq

/-- a successful remove_player between hands takes exactly the returned
stack off the books. -/
theorem remove_player_ok (s : EngineState) (a : Nat) (L : Int)
    (s2 : EngineState) (r : Int)
    (heq : remove_player s a = (s2, Except.ok r))
    (hnone : s.current_hand = none) (hinv : EngineInv s L) :
    EngineInv s2 (L - r) := by
  obtain ⟨hchip, hwf, hsync⟩ := hinv
  unfold remove_player at heq
  split at heq
  next => simp at heq
  next i hidx =>
    split at heq
    next => simp at heq
    next seat hget =>
      dsimp only at heq
      simp only [Prod.mk.injEq, Except.ok.injEq] at heq
      obtain ⟨hs2, hr⟩ := heq
      subst hs2
      subst hr
      refine ⟨?_, ?_, ?_⟩
      · rw [chip_total_eq, hand_pot_set_table, hand_pot_none s hnone]
        have hsum : seats_sum { s.table with
            seats := s.table.seats.set i
              { seat with
                agent_id := none
                stack := 0
                status := "empty"
                hole_cards := [] } } =
            seats_sum s.table - seat.stack + 0 :=
          put_seat_sum s.table i seat _ hget
        dsimp only
        rw [hsum]
        rw [chip_total_eq, hand_pot_none s hnone] at hchip
        omega
      · constructor
        · intro j sj hj
          dsimp only at hj
          by_cases hja : j = i
          · subst hja
            rw [get?_set_self _ _ _ _ hget] at hj
            cases hj
            exact hwf.1 j seat hget
          · rw [List.get?_set_ne _ _ (fun hh => hja hh.symm)] at hj
            exact hwf.1 j sj hj
        · intro sj hj
          dsimp only at hj
          obtain ⟨j, hjg⟩ := List.mem_iff_get?.mp hj
          by_cases hja : j = i
          · subst hja
            rw [get?_set_self _ _ _ _ hget] at hjg
            cases hjg
            exact Or.inr ⟨rfl, rfl, rfl⟩
          · rw [List.get?_set_ne _ _ (fun hh => hja hh.symm)] at hjg
            exact hwf.2 sj (List.get?_mem hjg)
      · intro h hh0
        have hh0b : s.current_hand = some h := hh0
        rw [hnone] at hh0b
        cases hh0b

/-- a rejected add_chips leaves the engine untouched. -/
theorem add_chips_error (s : EngineState) (a : Nat) (amt : Int)
    (s2 : EngineState) (e : String)
    (heq : add_chips s a amt = (s2, Except.error e)) : s2 = s := by
  unfold add_chips at heq
  split at heq
  next =>
    simp only [Prod.mk.injEq] at heq
    exact heq.1.symm
  next i hidx =>
    split at heq
    next =>
      simp only [Prod.mk.injEq] at heq
      exact heq.1.symm
    next seat hget =>
      dsimp only at heq
      split at heq
      next =>
        simp only [Prod.mk.injEq] at heq
        exact heq.1.symm
      next => simp at heq

/-- the index found for an agent carries that agent's seat. -/
theorem findIdx?_spec {α : Type} (p : α → Bool) :
    ∀ (l : List α) (st i : Nat), List.findIdx? p l st = some i →
      ∃ j x, l.get? j = some x ∧ p x = true ∧ i = st + j := by
  intro l
  induction l with
  | nil => intro st i h; simp [List.findIdx?] at h
  | cons a rest ih =>
    intro st i h
    rw [List.findIdx?_cons] at h
    by_cases hpa : p a = true
    · rw [if_pos hpa] at h
      cases h
      exact ⟨0, a, rfl, hpa, by omega⟩
    · rw [if_neg hpa] at h
      obtain ⟨j, x, hx, hpx, hi⟩ := ih (st + 1) i h
      exact ⟨j + 1, x, hx, hpx, by omega⟩

/-- a successful add_chips between hands adds exactly the amount to the
books. -/
theorem add_chips_ok (s : EngineState) (a : Nat) (amt : Int) (L : Int)
    (s2 : EngineState) (r : Int)
    (heq : add_chips s a amt = (s2, Except.ok r))
    (hnone : s.current_hand = none) (hinv : EngineInv s L) :
    EngineInv s2 (L + amt) := by
  obtain ⟨hchip, hwf, hsync⟩ := hinv
  unfold add_chips at heq
  split at heq
  next => simp at heq
  next i hidx =>
    split at heq
    next => simp at heq
    next seat hget =>
      dsimp only at heq
      split at heq
      next => simp at heq
      next hmax =>
        simp only [Prod.mk.injEq, Except.ok.injEq] at heq
        obtain ⟨hs2, hr⟩ := heq
        subst hs2
        obtain ⟨j, x, hjx, hpx, hij⟩ := findIdx?_spec _ _ _ _ hidx
        have hji : j = i := by omega
        rw [hji] at hjx
        rw [hget] at hjx
        have hxseat := Option.some.inj hjx
        subst hxseat
        simp only [decide_eq_true_eq] at hpx
        have hlseated : seat.agent_id.isSome = true ∧
            seat.status = "seated" := by
          rcases hwf.2 seat (List.get?_mem hget) with hl | hr2
          · exact hl
          · rw [hr2.1] at hpx
            cases hpx
        refine ⟨?_, ?_, ?_⟩
        · rw [chip_total_eq, hand_pot_set_table, hand_pot_none s hnone]
          have hsum : seats_sum { s.table with
              seats := s.table.seats.set i
                { seat with stack := seat.stack + amt } } =
              seats_sum s.table - seat.stack + (seat.stack + amt) :=
            put_seat_sum s.table i seat _ hget
          dsimp only
          rw [hsum]
          rw [chip_total_eq, hand_pot_none s hnone] at hchip
          omega
        · constructor
          · intro j2 sj hj
            dsimp only at hj
            by_cases hja : j2 = i
            · subst hja
              rw [get?_set_self _ _ _ _ hget] at hj
              cases hj
              exact hwf.1 j2 seat hget
            · rw [List.get?_set_ne _ _ (fun hh => hja hh.symm)] at hj
              exact hwf.1 j2 sj hj
          · intro sj hj
            dsimp only at hj
            obtain ⟨j2, hjg⟩ := List.mem_iff_get?.mp hj
            by_cases hja : j2 = i
            · subst hja
              rw [get?_set_self _ _ _ _ hget] at hjg
              cases hjg
              exact Or.inl hlseated
            · rw [List.get?_set_ne _ _ (fun hh => hja hh.symm)] at hjg
              exact hwf.2 sj (List.get?_mem hjg)
        · intro h hh0
          have hh0b : s.current_hand = some h := hh0
          rw [hnone] at hh0b
          cases hh0b

/-- the fresh engine balances an empty ledger. -/
theorem init_inv (cfg : TableConfig) (seed : Option Int)
    (rc : RakeConfig) : EngineInv (init_engine cfg seed rc) 0 := by
  refine ⟨?_, ?_, ?_⟩
  · rw [chip_total_eq]
    have h1 : hand_pot_of (init_engine cfg seed rc) = 0 := rfl
    have h2 : (init_engine cfg seed rc).total_rake_collected = 0 := rfl
    have h3 : seats_sum (init_engine cfg seed rc).table = 0 := by
      show (((List.range cfg.max_players).map
        (fun i => ({ seat_number := i } : SeatState))).map
        (fun se => se.stack)).sum = 0
      rw [List.map_map]
      have hc : ((fun se : SeatState => se.stack) ∘
          fun i => ({ seat_number := i } : SeatState)) =
          fun _ => (0 : Int) := funext fun i => rfl
      rw [hc]
      simp
    rw [h1, h2, h3]
    rfl
  · constructor
    · intro i se hi
      have hi2 : (((List.range cfg.max_players).map
          (fun j => ({ seat_number := j } : SeatState))).get? i) =
          some se := hi
      rw [List.get?_map] at hi2
      cases hr : (List.range cfg.max_players).get? i with
      | none =>
        rw [hr] at hi2
        cases hi2
      | some j =>
        rw [hr] at hi2
        simp only [Option.map_some', Option.some.injEq] at hi2
        have hlt : i < cfg.max_players := by
          by_contra hge
          push_neg at hge
          rw [List.get?_eq_none.mpr (by simpa using hge)] at hr
          cases hr
        rw [List.get?_range hlt] at hr
        have hji := Option.some.inj hr
        rw [← hi2]
        show j = i
        exact hji.symm
    · intro se hm
      obtain ⟨i, hmi, hse⟩ := List.mem_map.mp hm
      rw [← hse]
      exact Or.inr ⟨rfl, rfl, rfl⟩
  · intro h hh
    have hh2 : (none : Option HandState) = some h := hh
    cases hh2

/-- one guarded operation preserves the books. -/
theorem run_op_inv (mk_deck : Option Int → List Card)
    (sl : EngineState × Int) (op : Op)
    (hinv : EngineInv sl.1 sl.2) (hallow : op_allowed mk_deck sl.1 op) :
    EngineInv (run_op mk_deck sl op).1 (run_op mk_deck sl op).2 := by
  cases op with
  | seat_player a n b =>
    unfold run_op
    dsimp only
    split
    next s2 r heq => exact seat_player_ok sl.1 a n b sl.2 s2 r heq hinv
    next s2 e heq =>
      rw [seat_player_error sl.1 a n b s2 e heq]
      exact hinv
  | remove_player a =>
    have hnone : sl.1.current_hand = none := hallow
    unfold run_op
    dsimp only
    split
    next s2 r heq =>
      exact remove_player_ok sl.1 a sl.2 s2 r heq hnone hinv
    next s2 e heq =>
      rw [remove_player_error sl.1 a s2 e heq]
      exact hinv
  | add_chips a amt =>
    have hnone : sl.1.current_hand = none := hallow
    unfold run_op
    dsimp only
    split
    next s2 r heq =>
      exact add_chips_ok sl.1 a amt sl.2 s2 r heq hnone hinv
    next s2 e heq =>
      rw [add_chips_error sl.1 a amt s2 e heq]
      exact hinv
  | start_hand =>
    unfold run_op
    dsimp only
    rcases hallow with hok | hfix
    · exact start_hand_inv mk_deck sl.1 (start_hand mk_deck sl.1).1 sl.2
        hinv (by rw [← hok])
    · rw [hfix]
      exact hinv
  | process_action a ty amt =>
    unfold run_op
    dsimp only
    exact process_action_inv sl.1 a ty amt sl.2 hinv

/-- guarded sequences preserve the books. -/
theorem run_ops_inv (mk_deck : Option Int → List Card) :
    ∀ (ops : List Op) (sl : EngineState × Int),
      EngineInv sl.1 sl.2 → ops_allowed mk_deck sl ops →
      EngineInv (run_ops mk_deck sl ops).1 (run_ops mk_deck sl ops).2 := by
  intro ops
  induction ops with
  | nil =>
    intro sl h _
    exact h
  | cons op rest ih =>
    intro sl h hall
    obtain ⟨h1, h2⟩ := hall
    show EngineInv (run_ops mk_deck (run_op mk_deck sl op) rest).1 _
    exact ih (run_op mk_deck sl op) (run_op_inv mk_deck sl op h h1) h2

/-- a prefix of an allowed sequence is allowed. -/
theorem ops_allowed_take (mk_deck : Option Int → List Card) :
    ∀ (ops : List Op) (k : Nat) (sl : EngineState × Int),
      ops_allowed mk_deck sl ops → ops_allowed mk_deck sl (ops.take k) := by
  intro ops
  induction ops with
  | nil =>
    intro k sl h
    rw [List.take_nil]
    exact h
  | cons op rest ih =>
    intro k sl h
    cases k with
    | zero => exact trivial
    | succ m =>
      obtain ⟨h1, h2⟩ := h
      exact ⟨h1, ih m (run_op mk_deck sl op) h2⟩

/-- C1 (amended): chip conservation for guarded operation sequences.
When add_chips and remove_player only run between hands and every
start_hand either deals a hand or leaves the engine unchanged, then
after every prefix of the sequence the seat stacks plus the live
betting pot plus the rake collected equal the net chips bought into the
table. -/
theorem C1_amended (mk_deck : Option Int → List Card) (cfg : TableConfig)
    (seed : Option Int) (rc : RakeConfig) (ops : List Op) (k : Nat)
    (hallowed : ops_allowed mk_deck (init_engine cfg seed rc, 0) ops) :
    chip_total (run_ops mk_deck (init_engine cfg seed rc, 0)
        (ops.take k)).1 =
      (run_ops mk_deck (init_engine cfg seed rc, 0) (ops.take k)).2 :=
  (run_ops_inv mk_deck (ops.take k) (init_engine cfg seed rc, 0)
    (init_inv cfg seed rc)
    (ops_allowed_take mk_deck ops k _ hallowed)).1

/-- C1 witness: the two heads-up buy-ins followed by a successful
start_hand are an allowed sequence from the fresh table, and the books
balance after them. -/
theorem C1_amended_witness :
    chip_total (run_ops mk_ordered (init_engine cfg2 none {}, 0)
        (hu_start_ops.take 3)).1 =
      (run_ops mk_ordered (init_engine cfg2 none {}, 0)
        (hu_start_ops.take 3)).2 :=
  C1_amended mk_ordered cfg2 none {} hu_start_ops 3
    ⟨trivial, trivial, Or.inl rfl, trivial⟩

end Poker
